import Mathlib

/-!
# The pod-affinity filter of `pkg/algorithm/filters/pod_affinity.go`

A shallow embedding of `podAffinity.Filter` and the properties of its result.

Modelling choices.

* A Go pointer or slice that may be `nil` is an `Option`; `none` is `nil`.  A slice that is
  present but has length zero is `some []`.
* A Go `error` is an `Option Err`; `none` is the `nil` error.  A Go function returning
  `(value, error)` returns a pair, because Go lets both components be set.
* The types of `k8s.io/apimachinery` (`metav1.LabelSelector`, `labels.Selector`) and the
  conversion `metav1.LabelSelectorAsSelector` are not part of this repository: the types are
  the parameters `LS` and `Sel`, the conversion is the parameter written `conv`.
* `selector.And` is a slice of selectors grown by `append`: a `List Sel`.
* The collaborators `PodLister` and `HostCache` are interfaces; an implementation is a record
  of functions.  `Filter` calls `ListPod` once, `GetHost` once for each distinct node and
  `GetNodes` once for each distinct host, so functions describe every answer one call of
  `Filter` can observe.
* A `map[string]struct{}` is the list of its keys, without repetition, in insertion order.
  The code observes only which keys are present.
* `FilterTraced` is `Filter` with the calls to the conversion and to the collaborators
  recorded in order; it returns what `Filter` returns (`FilterTraced_fst`).  Inside the two
  loops over a map the recorded order is the one of the key list.
* `log.Printf` is not modelled.
-/

namespace filters

/-! ## Data model -/

/-- Modelled from the spec: the constant `constants.HostLabel` of package `pkg/constants`,
whose declaration is not among the sources; the spec calls it the reserved constant `host`. -/
def HostLabel : String := "host"

/-- HostTopologyKey is the TopologyKey used to indicate the scope of Affinity and AntiAffinity
rule is physical host (`pod_affinity.go`, line 31). -/
def HostTopologyKey : String := HostLabel

/-- The fields of `v1.PodAffinityTerm` read by the filter. -/
structure PodAffinityTerm (LS : Type) where
  /-- The field of type `*metav1.LabelSelector`. -/
  LabelSelector : Option LS
  TopologyKey : String

/-- The field of `v1.PodAffinity` read by the filter: a slice, `none` when it is `nil`. -/
structure PodAffinity (LS : Type) where
  RequiredDuringSchedulingIgnoredDuringExecution : Option (List (PodAffinityTerm LS))

/-- The field of `v1.Affinity` read by the filter: a pointer, `none` when it is `nil`. -/
structure Affinity (LS : Type) where
  PodAffinity : Option (PodAffinity LS)

/-- The fields of `v1.PodSpec` read by the filter. -/
structure PodSpec (LS : Type) where
  Affinity : Option (Affinity LS)
  NodeName : String

/-- The part of `v1.Pod` read by the filter. -/
structure Pod (LS : Type) where
  Spec : PodSpec LS

/-- The interface `algorithm.PodLister`. -/
structure PodLister (LS Sel Err : Type) where
  ListPod : List Sel → List (Pod LS) × Option Err

/-- The interface `algorithm.HostCache`. -/
structure HostCache where
  GetHost : String → String
  GetNodes : String → List String

/-- The receiver of `Filter` (`pod_affinity.go`, lines 33-36). -/
structure podAffinity (LS Sel Err : Type) where
  podLister : PodLister LS Sel Err
  hostCache : HostCache

/-- The constructor `NewPodAffinity` (`pod_affinity.go`, lines 39-44).  Its comment in the
source calls the result a pod anti-affinity filter; `Filter` reads the required pod-affinity
terms only. -/
def NewPodAffinity {LS Sel Err : Type} (podLister : PodLister LS Sel Err)
    (hostCache : HostCache) : podAffinity LS Sel Err :=
  { podLister := podLister, hostCache := hostCache }

/-! ## Key sets -/

/-- The keys of a `map[string]struct{}`. -/
abbrev KeySet := List String

/-- The assignment `m[k] = struct{}{}`. -/
def KeySet.store (m : KeySet) (k : String) : KeySet :=
  if k ∈ m then m else m ++ [k]

/-! ## The filter -/

section Filter

variable {LS Sel Err : Type}

/-- The loop of lines 59-70 on the terms still to visit, with the selectors appended so far:
terms of another topology key are skipped, a failed conversion returns its error. -/
def selectorLoop (conv : Option LS → Sel × Option Err) :
    List (PodAffinityTerm LS) → List Sel → Except Err (List Sel)
  | [], selectors => .ok selectors
  | af :: rest, selectors =>
    if af.TopologyKey ≠ HostTopologyKey then
      selectorLoop conv rest selectors
    else
      match conv af.LabelSelector with
      | (_, some err) => .error err
      | (selector, none) => selectorLoop conv rest (selectors ++ [selector])

/-- The loop of lines 85-89: the non-empty node names of the matched pods. -/
def podNodeMap (pods : List (Pod LS)) : KeySet :=
  pods.foldl (fun nodeMap pod =>
    if pod.Spec.NodeName ≠ "" then KeySet.store nodeMap pod.Spec.NodeName else nodeMap) []

/-- The loop of lines 92-95: the host of every key of `nodeMap`. -/
def hostMapOf (hostCache : HostCache) (nodeMap : KeySet) : KeySet :=
  nodeMap.foldl (fun hostMap node => KeySet.store hostMap (hostCache.GetHost node)) []

/-- The loop of lines 97-101: every node of every host is added to `nodeMap`. -/
def expandNodeMap (hostCache : HostCache) (hostMap nodeMap : KeySet) : KeySet :=
  hostMap.foldl (fun nodeMap host =>
    (hostCache.GetNodes host).foldl (fun nodeMap node => KeySet.store nodeMap node) nodeMap) nodeMap

/-- The loop of lines 103-107: the candidates that are keys of `nodeMap`, appended to
`filtered` in candidate order. -/
def appendPresent (nodeMap : KeySet) (nodes filtered : List String) : List String :=
  nodes.foldl (fun filtered node =>
    if node ∈ nodeMap then filtered ++ [node] else filtered) filtered

/-- The value of `nodeMap` at line 103, for the matched pods `pods`. -/
def finalNodeMap (hostCache : HostCache) (pods : List (Pod LS)) : KeySet :=
  expandNodeMap hostCache (hostMapOf hostCache (podNodeMap pods)) (podNodeMap pods)

/-- The function `podAffinity.Filter` (`pod_affinity.go`, lines 46-112). -/
def Filter (conv : Option LS → Sel × Option Err) (p : podAffinity LS Sel Err)
    (pod : Pod LS) (nodes : List String) : List String × Option Err :=
  match pod.Spec.Affinity with
  | none => (nodes, none)
  | some affinity =>
    match affinity.PodAffinity with
    | none => (nodes, none)
    | some podAff =>
      match podAff.RequiredDuringSchedulingIgnoredDuringExecution with
      | none => (nodes, none)
      | some affinities =>
        let filtered : List String := []
        match selectorLoop conv affinities [] with
        | .error err => (filtered, some err)
        | .ok selectors =>
          match p.podLister.ListPod selectors with
          | (_, some err) => (filtered, some err)
          | (pods, none) =>
            if pods.length = 0 then
              (filtered, none)
            else
              (appendPresent (finalNodeMap p.hostCache pods) nodes filtered, none)

end Filter

/-! ## The filter with its calls recorded -/

/-- A call made by `Filter`, with its argument: to the conversion of `k8s.io/apimachinery`,
to the pod lister, or to the host cache. -/
inductive Call (LS Sel : Type) where
  | LabelSelectorAsSelector (ls : Option LS)
  | ListPod (selectors : List Sel)
  | GetHost (node : String)
  | GetNodes (host : String)
  deriving DecidableEq

section Traced

variable {LS Sel Err : Type}

/-- The loop of lines 59-70, as `selectorLoop`, with every conversion appended to `trace`. -/
def selectorLoopTraced (conv : Option LS → Sel × Option Err) :
    List (PodAffinityTerm LS) → List Sel → List (Call LS Sel) →
      Except Err (List Sel) × List (Call LS Sel)
  | [], selectors, trace => (.ok selectors, trace)
  | af :: rest, selectors, trace =>
    if af.TopologyKey ≠ HostTopologyKey then
      selectorLoopTraced conv rest selectors trace
    else
      match conv af.LabelSelector with
      | (_, some err) => (.error err, trace ++ [Call.LabelSelectorAsSelector af.LabelSelector])
      | (selector, none) =>
        selectorLoopTraced conv rest (selectors ++ [selector])
          (trace ++ [Call.LabelSelectorAsSelector af.LabelSelector])

/-- The loop of lines 92-95, as `hostMapOf`, with every `GetHost` appended to `trace`.  The
keys are visited in the order of the list; Go leaves the order unspecified. -/
def hostMapOfTraced (hostCache : HostCache) (nodeMap : KeySet) (trace : List (Call LS Sel)) :
    KeySet × List (Call LS Sel) :=
  nodeMap.foldl (fun st node =>
    (KeySet.store st.1 (hostCache.GetHost node), st.2 ++ [Call.GetHost node])) ([], trace)

/-- The loop of lines 97-101, as `expandNodeMap`, with every `GetNodes` appended to `trace`. -/
def expandNodeMapTraced (hostCache : HostCache) (hostMap nodeMap : KeySet)
    (trace : List (Call LS Sel)) : KeySet × List (Call LS Sel) :=
  hostMap.foldl (fun st host =>
    ((hostCache.GetNodes host).foldl (fun nodeMap node => KeySet.store nodeMap node) st.1,
      st.2 ++ [Call.GetNodes host])) (nodeMap, trace)

/-- The function `podAffinity.Filter` (`pod_affinity.go`, lines 46-112), returning next to its
result the calls it made, in order. -/
def FilterTraced (conv : Option LS → Sel × Option Err) (p : podAffinity LS Sel Err)
    (pod : Pod LS) (nodes : List String) : (List String × Option Err) × List (Call LS Sel) :=
  match pod.Spec.Affinity with
  | none => ((nodes, none), [])
  | some affinity =>
    match affinity.PodAffinity with
    | none => ((nodes, none), [])
    | some podAff =>
      match podAff.RequiredDuringSchedulingIgnoredDuringExecution with
      | none => ((nodes, none), [])
      | some affinities =>
        let filtered : List String := []
        match selectorLoopTraced conv affinities [] [] with
        | (.error err, trace) => ((filtered, some err), trace)
        | (.ok selectors, trace) =>
          let trace := trace ++ [Call.ListPod selectors]
          match p.podLister.ListPod selectors with
          | (_, some err) => ((filtered, some err), trace)
          | (pods, none) =>
            if pods.length = 0 then
              ((filtered, none), trace)
            else
              let nodeMap := podNodeMap pods
              let hosts := hostMapOfTraced p.hostCache nodeMap trace
              let expanded := expandNodeMapTraced p.hostCache hosts.1 nodeMap hosts.2
              ((appendPresent expanded.1 nodes filtered, none), expanded.2)

/-- The selector arguments of the `ListPod` calls of a trace, in order. -/
def listPodCalls (trace : List (Call LS Sel)) : List (List Sel) :=
  trace.filterMap (fun c => match c with
    | Call.ListPod selectors => some selectors
    | _ => none)

/-- The label selectors handed to the conversion in a trace, in order. -/
def conversionCalls (trace : List (Call LS Sel)) : List (Option LS) :=
  trace.filterMap (fun c => match c with
    | Call.LabelSelectorAsSelector ls => some ls
    | _ => none)

/-- The node names handed to `GetHost` in a trace, in order. -/
def getHostCalls (trace : List (Call LS Sel)) : List String :=
  trace.filterMap (fun c => match c with
    | Call.GetHost node => some node
    | _ => none)

end Traced

/-! ## Specification-side definitions -/

section Spec

variable {LS Sel Err : Type}

/-- The required pod-affinity term list of a pod: `none` when the affinity specification, its
pod-affinity section or the list itself is absent. -/
def requiredTerms (pod : Pod LS) : Option (List (PodAffinityTerm LS)) :=
  match pod.Spec.Affinity with
  | none => none
  | some affinity =>
    match affinity.PodAffinity with
    | none => none
    | some podAff => podAff.RequiredDuringSchedulingIgnoredDuringExecution

/-- A term is host-scoped when its topology key is the reserved key. -/
def hostScoped (t : PodAffinityTerm LS) : Bool :=
  decide (t.TopologyKey = HostTopologyKey)

/-- The host-scoped selectors of a term list all convert. -/
def allConvert (conv : Option LS → Sel × Option Err) (terms : List (PodAffinityTerm LS)) : Prop :=
  ∀ t ∈ terms, t.TopologyKey = HostTopologyKey → (conv t.LabelSelector).2 = none

instance (conv : Option LS → Sel × Option Err) (terms : List (PodAffinityTerm LS)) :
    Decidable (allConvert conv terms) :=
  decidable_of_iff
    (terms.all (fun t => !hostScoped t || (conv t.LabelSelector).2.isNone) = true)
    (by simp [allConvert, hostScoped, Option.isNone_iff_eq_none, imp_iff_not_or])

/-- The combined selector of the specification: the converted label selectors of the
host-scoped terms, in term order. -/
def hostSelectors (conv : Option LS → Sel × Option Err) (terms : List (PodAffinityTerm LS)) :
    List Sel :=
  (terms.filter hostScoped).map (fun t => (conv t.LabelSelector).1)

/-- The eligible set `E` of the specification's steps 5 and 6: the union, over the matched
pods with a non-empty assigned node `n`, of `GetNodes (GetHost n)`. -/
def specEligible (hostCache : HostCache) (pods : List (Pod LS)) : List String :=
  (pods.filter (fun q => decide (q.Spec.NodeName ≠ ""))).flatMap
    (fun q => hostCache.GetNodes (hostCache.GetHost q.Spec.NodeName))

/-- The non-empty assigned nodes of the matched pods. -/
def assignedNodes (pods : List (Pod LS)) : List String :=
  (pods.filter (fun q => decide (q.Spec.NodeName ≠ ""))).map (fun q => q.Spec.NodeName)

end Spec

/-! ## Concrete scenarios -/

namespace Scenario

/-- A conversion that never fails: selector `n` converts to `n`, the `nil` pointer to `0`. -/
def convOk (ls : Option Nat) : Nat × Option String :=
  (ls.getD 0, none)

/-- A conversion that rejects the selectors `13` and `17`, each with an error of its own. -/
def convStrict (ls : Option Nat) : Nat × Option String :=
  if ls = some 13 then (0, some "malformed selector 13")
  else if ls = some 17 then (0, some "malformed selector 17")
  else (ls.getD 0, none)

/-- A pod, not yet scheduled, whose required pod-affinity term list is `terms`. -/
def podWith (terms : List (PodAffinityTerm Nat)) : Pod Nat :=
  { Spec :=
    { Affinity := some
        { PodAffinity := some ⟨some terms⟩ },
      NodeName := "" } }

/-- A pod without affinity specification, assigned to `node`. -/
def podOn (node : String) : Pod Nat :=
  { Spec := { Affinity := none, NodeName := node } }

/-- A pod lister that answers every query with `pods` and `err`. -/
def lister (pods : List (Pod Nat)) (err : Option String) : PodLister Nat Nat String :=
  { ListPod := fun _ => (pods, err) }

/-- The topology of scenario 1: `n1` is on `h1`, and `h1` owns `n1` and `n2`. -/
def cache : HostCache :=
  { GetHost := fun n => if n = "n1" then "h1" else "",
    GetNodes := fun h => if h = "h1" then ["n1", "n2"] else [] }

/-- A topology in which no host owns a node. -/
def cacheEmpty : HostCache :=
  { GetHost := fun _ => "h1", GetNodes := fun _ => [] }

/-- One host-scoped term with selector `1`. -/
def hostTerm : PodAffinityTerm Nat :=
  { LabelSelector := some 1, TopologyKey := "host" }

/-- One term with selector `1` scoped to another topology key. -/
def zoneTerm : PodAffinityTerm Nat :=
  { LabelSelector := some 1, TopologyKey := "zone" }

/-- Four terms: a `zone` term with a selector that does not convert, a host-scoped term that
converts, and two host-scoped terms that do not, selector `17` before selector `13`. -/
def mixedTerms : List (PodAffinityTerm Nat) :=
  [{ LabelSelector := some 13, TopologyKey := "zone" }, hostTerm,
   { LabelSelector := some 17, TopologyKey := "host" },
   { LabelSelector := some 13, TopologyKey := "host" }]

/-- Two terms: a `zone` term whose selector `13` does not convert, and a host-scoped term
whose selector `1` converts. -/
def zoneMalformedTerms : List (PodAffinityTerm Nat) :=
  [{ LabelSelector := some 13, TopologyKey := "zone" }, hostTerm]

/-- A pod, not yet scheduled, whose pod-affinity section is present with a `nil` required
term list. -/
def podNilTerms : Pod Nat :=
  { Spec :=
    { Affinity := some
        { PodAffinity := some ⟨none⟩ },
      NodeName := "" } }

/-- A pod without affinity specification that is not scheduled. -/
def podUnscheduled : Pod Nat :=
  podOn ""

/-- A topology that knows no host: every node is on the host with the empty name, and no host
owns a node. -/
def cacheUnknown : HostCache :=
  { GetHost := fun _ => "", GetNodes := fun _ => [] }

/-- The topology of scenario 1 with the nodes of `h1` listed twice and in the other order. -/
def cacheShuffled : HostCache :=
  { GetHost := fun n => if n = "n1" then "h1" else "",
    GetNodes := fun h => if h = "h1" then ["n2", "n1", "n2"] else [] }

/-- The filter over a lister answering `pods` and `err`, and the host cache `hostCache`. -/
def filterOf (pods : List (Pod Nat)) (err : Option String) (hostCache : HostCache) :
    podAffinity Nat Nat String :=
  NewPodAffinity (lister pods err) hostCache

end Scenario

/-! ## Key sets: membership -/

theorem KeySet.mem_store {m : KeySet} {k x : String} :
    x ∈ KeySet.store m k ↔ x ∈ m ∨ x = k := by
  unfold KeySet.store
  split
  · constructor
    · intro h; exact Or.inl h
    · rintro (h | h)
      · exact h
      · subst h; assumption
  · simp

theorem KeySet.nodup_store {m : KeySet} {k : String} (h : m.Nodup) :
    (KeySet.store m k).Nodup := by
  unfold KeySet.store
  split
  · exact h
  · rename_i hk
    exact List.nodup_append.mpr ⟨h, List.nodup_singleton k, by
      intro a ha hb
      rw [List.mem_singleton] at hb
      subst hb
      exact hk ha⟩

/-! ## The loops, one by one -/

section Loops

variable {LS Sel Err : Type}

theorem mem_foldl_podNode (pods : List (Pod LS)) (acc : KeySet) (x : String) :
    x ∈ pods.foldl (fun nodeMap pod =>
        if pod.Spec.NodeName ≠ "" then KeySet.store nodeMap pod.Spec.NodeName else nodeMap) acc
      ↔ x ∈ acc ∨ ∃ q ∈ pods, q.Spec.NodeName ≠ "" ∧ q.Spec.NodeName = x := by
  induction pods generalizing acc with
  | nil => simp
  | cons q rest ih =>
    rw [List.foldl_cons, ih]
    by_cases hq : q.Spec.NodeName = ""
    · simp [hq]
    · simp only [ne_eq, hq, not_false_eq_true, if_true, KeySet.mem_store, List.mem_cons,
        exists_eq_or_imp, true_and]
      constructor
      · rintro ((h | h) | h)
        · exact Or.inl h
        · exact Or.inr (Or.inl h.symm)
        · exact Or.inr (Or.inr h)
      · rintro (h | h | h)
        · exact Or.inl (Or.inl h)
        · exact Or.inl (Or.inr h.symm)
        · exact Or.inr h

theorem mem_podNodeMap (pods : List (Pod LS)) (x : String) :
    x ∈ podNodeMap pods ↔ ∃ q ∈ pods, q.Spec.NodeName ≠ "" ∧ q.Spec.NodeName = x := by
  unfold podNodeMap
  rw [mem_foldl_podNode]
  simp

theorem mem_foldl_host (hostCache : HostCache) (nodeMap acc : KeySet) (h : String) :
    h ∈ nodeMap.foldl (fun hostMap node => KeySet.store hostMap (hostCache.GetHost node)) acc
      ↔ h ∈ acc ∨ ∃ n ∈ nodeMap, hostCache.GetHost n = h := by
  induction nodeMap generalizing acc with
  | nil => simp
  | cons n rest ih =>
    rw [List.foldl_cons, ih]
    simp only [KeySet.mem_store, List.mem_cons, exists_eq_or_imp]
    constructor
    · rintro ((h1 | h1) | h1)
      · exact Or.inl h1
      · exact Or.inr (Or.inl h1.symm)
      · exact Or.inr (Or.inr h1)
    · rintro (h1 | h1 | h1)
      · exact Or.inl (Or.inl h1)
      · exact Or.inl (Or.inr h1.symm)
      · exact Or.inr h1

theorem mem_hostMapOf (hostCache : HostCache) (nodeMap : KeySet) (h : String) :
    h ∈ hostMapOf hostCache nodeMap ↔ ∃ n ∈ nodeMap, hostCache.GetHost n = h := by
  unfold hostMapOf
  rw [mem_foldl_host]
  simp

theorem mem_foldl_store (ns : List String) (acc : KeySet) (x : String) :
    x ∈ ns.foldl (fun nodeMap node => KeySet.store nodeMap node) acc ↔ x ∈ acc ∨ x ∈ ns := by
  induction ns generalizing acc with
  | nil => simp
  | cons n rest ih =>
    rw [List.foldl_cons, ih, KeySet.mem_store, List.mem_cons, or_assoc]

theorem mem_expandNodeMap (hostCache : HostCache) (hostMap nodeMap : KeySet) (x : String) :
    x ∈ expandNodeMap hostCache hostMap nodeMap
      ↔ x ∈ nodeMap ∨ ∃ h ∈ hostMap, x ∈ hostCache.GetNodes h := by
  unfold expandNodeMap
  induction hostMap generalizing nodeMap with
  | nil => simp
  | cons h rest ih =>
    rw [List.foldl_cons, ih, mem_foldl_store]
    simp only [List.mem_cons, exists_eq_or_imp, or_assoc]

theorem appendPresent_eq (nodeMap : KeySet) (nodes filtered : List String) :
    appendPresent nodeMap nodes filtered
      = filtered ++ nodes.filter (fun x => decide (x ∈ nodeMap)) := by
  unfold appendPresent
  induction nodes generalizing filtered with
  | nil => simp
  | cons n rest ih =>
    rw [List.foldl_cons, ih]
    by_cases hn : n ∈ nodeMap
    · simp [hn, List.filter_cons]
    · simp [hn, List.filter_cons]

end Loops

/-! ## The selector loop -/

section SelectorLoop

variable {LS Sel Err : Type}

theorem selectorLoop_ok (conv : Option LS → Sel × Option Err)
    (terms : List (PodAffinityTerm LS)) (acc : List Sel) (h : allConvert conv terms) :
    selectorLoop conv terms acc = .ok (acc ++ hostSelectors conv terms) := by
  induction terms generalizing acc with
  | nil => simp [selectorLoop, hostSelectors]
  | cons t rest ih =>
    have hrest : allConvert conv rest := fun u hu => h u (List.mem_cons_of_mem t hu)
    unfold selectorLoop
    by_cases ht : t.TopologyKey = HostTopologyKey
    · have hc := h t (List.mem_cons_self t rest) ht
      rw [if_neg (not_not.mpr ht)]
      rcases hconv : conv t.LabelSelector with ⟨s, e⟩
      rw [hconv] at hc
      simp only at hc
      subst hc
      simp only
      rw [ih _ hrest]
      simp [hostSelectors, hostScoped, ht, List.filter_cons, hconv]
    · rw [if_pos ht, ih _ hrest]
      simp [hostSelectors, hostScoped, ht, List.filter_cons]

theorem selectorLoop_error (conv : Option LS → Sel × Option Err)
    (pre post : List (PodAffinityTerm LS)) (t : PodAffinityTerm LS) (acc : List Sel) (e : Err)
    (hpre : allConvert conv pre) (ht : t.TopologyKey = HostTopologyKey)
    (he : (conv t.LabelSelector).2 = some e) :
    selectorLoop conv (pre ++ t :: post) acc = .error e := by
  induction pre generalizing acc with
  | nil =>
    rw [List.nil_append]
    unfold selectorLoop
    rw [if_neg (not_not.mpr ht)]
    rcases hconv : conv t.LabelSelector with ⟨s, e1⟩
    rw [hconv] at he
    simp only at he
    subst he
    rfl
  | cons u rest ih =>
    have hrest : allConvert conv rest := fun v hv => hpre v (List.mem_cons_of_mem u hv)
    rw [List.cons_append]
    unfold selectorLoop
    by_cases hu : u.TopologyKey = HostTopologyKey
    · have hc := hpre u (List.mem_cons_self u rest) hu
      rw [if_neg (not_not.mpr hu)]
      rcases hconv : conv u.LabelSelector with ⟨s, e1⟩
      rw [hconv] at hc
      simp only at hc
      subst hc
      simp only
      exact ih _ hrest
    · rw [if_pos hu]
      exact ih _ hrest

/-- A term list either converts as a whole or splits at its first failing host-scoped term. -/
theorem allConvert_or_split (conv : Option LS → Sel × Option Err)
    (terms : List (PodAffinityTerm LS)) :
    allConvert conv terms ∨
      ∃ pre t post e, terms = pre ++ t :: post ∧ allConvert conv pre ∧
        t.TopologyKey = HostTopologyKey ∧ (conv t.LabelSelector).2 = some e := by
  induction terms with
  | nil => exact Or.inl (fun t ht => absurd ht (List.not_mem_nil t))
  | cons u rest ih =>
    by_cases hu : u.TopologyKey = HostTopologyKey → (conv u.LabelSelector).2 = none
    · rcases ih with h | ⟨pre, t, post, e, h1, h2, h3, h4⟩
      · left
        intro v hv
        rcases List.mem_cons.mp hv with rfl | hv
        · exact hu
        · exact h v hv
      · right
        refine ⟨u :: pre, t, post, e, by rw [h1, List.cons_append], ?_, h3, h4⟩
        intro v hv
        rcases List.mem_cons.mp hv with rfl | hv
        · exact hu
        · exact h2 v hv
    · right
      rw [Classical.not_imp] at hu
      obtain ⟨hk, hne⟩ := hu
      obtain ⟨e, he⟩ := Option.ne_none_iff_exists'.mp hne
      exact ⟨[], u, rest, e, rfl, fun t ht => absurd ht (List.not_mem_nil t), hk, he⟩

end SelectorLoop

/-! ## Unfolding the filter -/

section Unfold

variable {LS Sel Err : Type}

theorem requiredTerms_eq_none_iff (pod : Pod LS) :
    requiredTerms pod = none ↔
      pod.Spec.Affinity = none ∨
      (∃ a, pod.Spec.Affinity = some a ∧ a.PodAffinity = none) ∨
      (∃ a pa, pod.Spec.Affinity = some a ∧ a.PodAffinity = some pa ∧
        pa.RequiredDuringSchedulingIgnoredDuringExecution = none) := by
  unfold requiredTerms
  rcases h1 : pod.Spec.Affinity with _ | a
  · simp
  · rcases h2 : a.PodAffinity with _ | pa
    · simp [h2]
    · simp [h2]

theorem Filter_of_none (conv : Option LS → Sel × Option Err) (p : podAffinity LS Sel Err)
    (pod : Pod LS) (nodes : List String) (h : requiredTerms pod = none) :
    Filter conv p pod nodes = (nodes, none) := by
  unfold requiredTerms at h
  unfold Filter
  rcases h1 : pod.Spec.Affinity with _ | a
  · rfl
  · rcases h2 : a.PodAffinity with _ | pa
    · simp only [h2]
    · rw [h1] at h
      simp only [h2] at h
      simp only [h2, h]

theorem Filter_of_some (conv : Option LS → Sel × Option Err) (p : podAffinity LS Sel Err)
    (pod : Pod LS) (nodes : List String) (terms : List (PodAffinityTerm LS))
    (h : requiredTerms pod = some terms) :
    Filter conv p pod nodes =
      match selectorLoop conv terms [] with
      | .error err => ([], some err)
      | .ok selectors =>
        match p.podLister.ListPod selectors with
        | (_, some err) => ([], some err)
        | (pods, none) =>
          if pods.length = 0 then ([], none)
          else (appendPresent (finalNodeMap p.hostCache pods) nodes [], none) := by
  unfold requiredTerms at h
  unfold Filter
  rcases h1 : pod.Spec.Affinity with _ | a
  · rw [h1] at h
    exact absurd h (by simp)
  · rw [h1] at h
    rcases h2 : a.PodAffinity with _ | pa
    · simp only [h2] at h
      exact absurd h (by simp)
    · simp only [h2] at h
      simp only [h2, h]

end Unfold

/-! ## The eligible set and the outcome of pod discovery -/

section Outcome

variable {LS Sel Err : Type}

theorem mem_assignedNodes (pods : List (Pod LS)) (x : String) :
    x ∈ assignedNodes pods ↔ ∃ q ∈ pods, q.Spec.NodeName ≠ "" ∧ q.Spec.NodeName = x := by
  simp [assignedNodes, List.mem_map, List.mem_filter, and_assoc]

theorem mem_specEligible (hostCache : HostCache) (pods : List (Pod LS)) (x : String) :
    x ∈ specEligible hostCache pods ↔
      ∃ q ∈ pods, q.Spec.NodeName ≠ "" ∧
        x ∈ hostCache.GetNodes (hostCache.GetHost q.Spec.NodeName) := by
  simp [specEligible, List.mem_flatMap, List.mem_filter, and_assoc]

theorem mem_finalNodeMap (hostCache : HostCache) (pods : List (Pod LS)) (x : String) :
    x ∈ finalNodeMap hostCache pods ↔
      x ∈ assignedNodes pods ∨ x ∈ specEligible hostCache pods := by
  unfold finalNodeMap
  rw [mem_expandNodeMap, mem_podNodeMap, mem_assignedNodes, mem_specEligible]
  apply or_congr Iff.rfl
  constructor
  · rintro ⟨h, hh, hx⟩
    obtain ⟨n, hn, rfl⟩ := (mem_hostMapOf hostCache _ h).mp hh
    obtain ⟨q, hq, hne, rfl⟩ := (mem_podNodeMap pods n).mp hn
    exact ⟨q, hq, hne, hx⟩
  · rintro ⟨q, hq, hne, hx⟩
    refine ⟨hostCache.GetHost q.Spec.NodeName, ?_, hx⟩
    exact (mem_hostMapOf hostCache _ _).mpr
      ⟨q.Spec.NodeName, (mem_podNodeMap pods _).mpr ⟨q, hq, hne, rfl⟩, rfl⟩

theorem finalNodeMap_nil (hostCache : HostCache) :
    finalNodeMap hostCache ([] : List (Pod LS)) = [] := rfl

/-- Once every host-scoped selector converts, the outcome is that of pod discovery on the
host-scoped selectors. -/
theorem Filter_of_convert (conv : Option LS → Sel × Option Err) (p : podAffinity LS Sel Err)
    (pod : Pod LS) (nodes : List String) (terms : List (PodAffinityTerm LS))
    (hreq : requiredTerms pod = some terms) (hconv : allConvert conv terms) :
    Filter conv p pod nodes =
      match p.podLister.ListPod (hostSelectors conv terms) with
      | (_, some err) => ([], some err)
      | (pods, none) =>
        (nodes.filter (fun x => decide (x ∈ finalNodeMap p.hostCache pods)), none) := by
  rw [Filter_of_some conv p pod nodes terms hreq, selectorLoop_ok conv terms [] hconv,
    List.nil_append]
  simp only
  rcases hl : p.podLister.ListPod (hostSelectors conv terms) with ⟨pods, _ | err⟩
  · simp only
    by_cases hp : pods.length = 0
    · rw [if_pos hp]
      have : pods = [] := List.length_eq_zero.mp hp
      subst this
      simp [finalNodeMap_nil]
    · rw [if_neg hp, appendPresent_eq, List.nil_append]
  · rfl

theorem Filter_listed (conv : Option LS → Sel × Option Err) (p : podAffinity LS Sel Err)
    (pod : Pod LS) (nodes : List String) (terms : List (PodAffinityTerm LS))
    (pods : List (Pod LS)) (hreq : requiredTerms pod = some terms)
    (hconv : allConvert conv terms)
    (hlist : p.podLister.ListPod (hostSelectors conv terms) = (pods, none)) :
    Filter conv p pod nodes =
      (nodes.filter (fun x => decide (x ∈ finalNodeMap p.hostCache pods)), none) := by
  rw [Filter_of_convert conv p pod nodes terms hreq hconv, hlist]

theorem Filter_list_error (conv : Option LS → Sel × Option Err) (p : podAffinity LS Sel Err)
    (pod : Pod LS) (nodes : List String) (terms : List (PodAffinityTerm LS)) (e : Err)
    (hreq : requiredTerms pod = some terms) (hconv : allConvert conv terms)
    (hlist : (p.podLister.ListPod (hostSelectors conv terms)).2 = some e) :
    Filter conv p pod nodes = ([], some e) := by
  rw [Filter_of_convert conv p pod nodes terms hreq hconv]
  rcases hl : p.podLister.ListPod (hostSelectors conv terms) with ⟨pods, _ | err⟩
  · rw [hl] at hlist
    exact absurd hlist (by simp)
  · rw [hl] at hlist
    simp only at hlist
    simp only [Option.some.inj hlist]

theorem Filter_convert_error (conv : Option LS → Sel × Option Err) (p : podAffinity LS Sel Err)
    (pod : Pod LS) (nodes : List String) (pre post : List (PodAffinityTerm LS))
    (t : PodAffinityTerm LS) (e : Err)
    (hreq : requiredTerms pod = some (pre ++ t :: post)) (hpre : allConvert conv pre)
    (ht : t.TopologyKey = HostTopologyKey) (he : (conv t.LabelSelector).2 = some e) :
    Filter conv p pod nodes = ([], some e) := by
  rw [Filter_of_some conv p pod nodes _ hreq, selectorLoop_error conv pre post t [] e hpre ht he]

theorem filter_mem_eq_self_iff (l m : List String) :
    l.filter (fun x => decide (x ∈ m)) = l ↔ ∀ x ∈ l, x ∈ m := by
  rw [List.filter_eq_self]
  simp

theorem hostSelectors_of_no_host (conv : Option LS → Sel × Option Err)
    (terms : List (PodAffinityTerm LS))
    (h : ∀ t ∈ terms, t.TopologyKey ≠ HostTopologyKey) :
    allConvert conv terms ∧ hostSelectors conv terms = [] := by
  refine ⟨fun t ht hk => absurd hk (h t ht), ?_⟩
  unfold hostSelectors
  rw [List.map_eq_nil_iff, List.filter_eq_nil_iff]
  intro t ht
  simpa [hostScoped] using h t ht

/-- What the code does for a present term list without a host-scoped term: no early return,
pod discovery on the empty selector list, then host resolution as usual. -/
theorem Filter_of_no_host (conv : Option LS → Sel × Option Err) (p : podAffinity LS Sel Err)
    (pod : Pod LS) (nodes : List String) (terms : List (PodAffinityTerm LS))
    (hreq : requiredTerms pod = some terms)
    (h : ∀ t ∈ terms, t.TopologyKey ≠ HostTopologyKey) :
    (∀ e, (p.podLister.ListPod []).2 = some e → Filter conv p pod nodes = ([], some e)) ∧
    ((p.podLister.ListPod []).2 = none →
      Filter conv p pod nodes =
        (nodes.filter (fun x => decide (x ∈ assignedNodes (p.podLister.ListPod []).1 ++
          specEligible p.hostCache (p.podLister.ListPod []).1)), none)) ∧
    (Filter conv p pod nodes = (nodes, none) ↔
      (p.podLister.ListPod []).2 = none ∧
        ∀ x ∈ nodes, x ∈ assignedNodes (p.podLister.ListPod []).1 ∨
          x ∈ specEligible p.hostCache (p.podLister.ListPod []).1) := by
  obtain ⟨hconv, hsel⟩ := hostSelectors_of_no_host conv terms h
  have hF := Filter_of_convert conv p pod nodes terms hreq hconv
  rw [hsel] at hF
  rcases hl : p.podLister.ListPod [] with ⟨pods, _ | err⟩
  · rw [hl] at hF
    simp only at hF
    have hfilter : nodes.filter (fun x => decide (x ∈ finalNodeMap p.hostCache pods)) =
        nodes.filter (fun x => decide (x ∈ assignedNodes pods ++
          specEligible p.hostCache pods)) := by
      apply List.filter_congr
      intro x _
      rw [decide_eq_decide, mem_finalNodeMap, List.mem_append]
    refine ⟨fun e he => absurd he (by simp), fun _ => by rw [hF, hfilter], ?_⟩
    rw [hF, hfilter]
    simp only [Prod.mk.injEq, and_true, true_and]
    rw [filter_mem_eq_self_iff]
    simp only [List.mem_append]
  · rw [hl] at hF
    simp only at hF
    refine ⟨fun e he => ?_, fun hn => absurd hn (by simp), ?_⟩
    · simp only [Option.some.injEq] at he
      rw [hF, he]
    · rw [hF]
      simp

end Outcome

/-! ## The recorded calls -/

section TracedLemmas

variable {LS Sel Err : Type}

/-- Recording the calls does not change what the selector loop returns. -/
theorem selectorLoopTraced_fst (conv : Option LS → Sel × Option Err)
    (terms : List (PodAffinityTerm LS)) (acc : List Sel) (trace : List (Call LS Sel)) :
    (selectorLoopTraced conv terms acc trace).1 = selectorLoop conv terms acc := by
  induction terms generalizing acc trace with
  | nil => rfl
  | cons t rest ih =>
    unfold selectorLoopTraced selectorLoop
    by_cases ht : t.TopologyKey = HostTopologyKey
    · rw [if_neg (not_not.mpr ht), if_neg (not_not.mpr ht)]
      rcases conv t.LabelSelector with ⟨s, _ | e⟩
      · exact ih _ _
      · rfl
    · rw [if_pos ht, if_pos ht]
      exact ih _ _

theorem selectorLoopTraced_snd (conv : Option LS → Sel × Option Err)
    (terms : List (PodAffinityTerm LS)) (acc : List Sel) (trace : List (Call LS Sel))
    (h : allConvert conv terms) :
    (selectorLoopTraced conv terms acc trace).2 =
      trace ++ (terms.filter hostScoped).map
        (fun t => Call.LabelSelectorAsSelector t.LabelSelector) := by
  induction terms generalizing acc trace with
  | nil => simp [selectorLoopTraced]
  | cons t rest ih =>
    have hrest : allConvert conv rest := fun u hu => h u (List.mem_cons_of_mem t hu)
    unfold selectorLoopTraced
    by_cases ht : t.TopologyKey = HostTopologyKey
    · have hc := h t (List.mem_cons_self t rest) ht
      rw [if_neg (not_not.mpr ht)]
      rcases hconv : conv t.LabelSelector with ⟨s, e⟩
      rw [hconv] at hc
      simp only at hc
      subst hc
      simp only
      rw [ih _ _ hrest]
      simp [hostScoped, ht, List.filter_cons]
    · rw [if_pos ht, ih _ _ hrest]
      simp [hostScoped, ht, List.filter_cons]

theorem foldl_hostTraced (hostCache : HostCache) (nodeMap hostMap : KeySet)
    (trace : List (Call LS Sel)) :
    nodeMap.foldl (fun (st : KeySet × List (Call LS Sel)) node =>
        (KeySet.store st.1 (hostCache.GetHost node), st.2 ++ [Call.GetHost node]))
        (hostMap, trace) =
      (nodeMap.foldl (fun hostMap node => KeySet.store hostMap (hostCache.GetHost node)) hostMap,
        trace ++ nodeMap.map Call.GetHost) := by
  induction nodeMap generalizing hostMap trace with
  | nil => simp
  | cons n rest ih =>
    rw [List.foldl_cons, ih]
    simp

theorem hostMapOfTraced_eq (hostCache : HostCache) (nodeMap : KeySet)
    (trace : List (Call LS Sel)) :
    hostMapOfTraced hostCache nodeMap trace =
      (hostMapOf hostCache nodeMap, trace ++ nodeMap.map Call.GetHost) := by
  unfold hostMapOfTraced hostMapOf
  exact foldl_hostTraced hostCache nodeMap [] trace

theorem expandNodeMapTraced_eq (hostCache : HostCache) (hostMap nodeMap : KeySet)
    (trace : List (Call LS Sel)) :
    expandNodeMapTraced hostCache hostMap nodeMap trace =
      (expandNodeMap hostCache hostMap nodeMap, trace ++ hostMap.map Call.GetNodes) := by
  unfold expandNodeMapTraced expandNodeMap
  induction hostMap generalizing nodeMap trace with
  | nil => simp
  | cons h rest ih =>
    rw [List.foldl_cons, List.foldl_cons, ih]
    simp

theorem FilterTraced_of_none (conv : Option LS → Sel × Option Err)
    (p : podAffinity LS Sel Err) (pod : Pod LS) (nodes : List String)
    (h : requiredTerms pod = none) :
    FilterTraced conv p pod nodes = ((nodes, none), []) := by
  unfold requiredTerms at h
  unfold FilterTraced
  rcases h1 : pod.Spec.Affinity with _ | a
  · rfl
  · rcases h2 : a.PodAffinity with _ | pa
    · simp only [h2]
    · rw [h1] at h
      simp only [h2] at h
      simp only [h2, h]

theorem FilterTraced_of_some (conv : Option LS → Sel × Option Err)
    (p : podAffinity LS Sel Err) (pod : Pod LS) (nodes : List String)
    (terms : List (PodAffinityTerm LS)) (h : requiredTerms pod = some terms) :
    FilterTraced conv p pod nodes =
      match selectorLoopTraced conv terms [] [] with
      | (.error err, trace) => (([], some err), trace)
      | (.ok selectors, trace) =>
        match p.podLister.ListPod selectors with
        | (_, some err) => (([], some err), trace ++ [Call.ListPod selectors])
        | (pods, none) =>
          if pods.length = 0 then (([], none), trace ++ [Call.ListPod selectors])
          else
            ((appendPresent (expandNodeMapTraced p.hostCache
                (hostMapOfTraced p.hostCache (podNodeMap pods)
                  (trace ++ [Call.ListPod selectors])).1 (podNodeMap pods)
                (hostMapOfTraced p.hostCache (podNodeMap pods)
                  (trace ++ [Call.ListPod selectors])).2).1 nodes [], none),
              (expandNodeMapTraced p.hostCache
                (hostMapOfTraced p.hostCache (podNodeMap pods)
                  (trace ++ [Call.ListPod selectors])).1 (podNodeMap pods)
                (hostMapOfTraced p.hostCache (podNodeMap pods)
                  (trace ++ [Call.ListPod selectors])).2).2) := by
  unfold requiredTerms at h
  unfold FilterTraced
  rcases h1 : pod.Spec.Affinity with _ | a
  · rw [h1] at h
    exact absurd h (by simp)
  · rw [h1] at h
    rcases h2 : a.PodAffinity with _ | pa
    · simp only [h2] at h
      exact absurd h (by simp)
    · simp only [h2] at h
      simp only [h2, h]

/-- Once every host-scoped selector converts, the calls are: the conversions of the
host-scoped terms, one `ListPod`, and after a successful answer one `GetHost` for each key of
`nodeMap` and one `GetNodes` for each key of `hostMap`. -/
theorem FilterTraced_of_convert (conv : Option LS → Sel × Option Err)
    (p : podAffinity LS Sel Err) (pod : Pod LS) (nodes : List String)
    (terms : List (PodAffinityTerm LS))
    (hreq : requiredTerms pod = some terms) (hconv : allConvert conv terms) :
    FilterTraced conv p pod nodes =
      (Filter conv p pod nodes,
        (terms.filter hostScoped).map (fun t => Call.LabelSelectorAsSelector t.LabelSelector)
          ++ [Call.ListPod (hostSelectors conv terms)]
          ++ match p.podLister.ListPod (hostSelectors conv terms) with
             | (_, some _) => []
             | (pods, none) =>
               (podNodeMap pods).map Call.GetHost
                 ++ (hostMapOf p.hostCache (podNodeMap pods)).map Call.GetNodes) := by
  rw [FilterTraced_of_some conv p pod nodes terms hreq,
    Filter_of_some conv p pod nodes terms hreq]
  have h1 := selectorLoopTraced_fst conv terms [] ([] : List (Call LS Sel))
  have h2 := selectorLoopTraced_snd conv terms [] ([] : List (Call LS Sel)) hconv
  rw [selectorLoop_ok conv terms [] hconv] at h1
  rw [selectorLoop_ok conv terms [] hconv]
  rcases hT : selectorLoopTraced conv terms [] ([] : List (Call LS Sel)) with ⟨r, tr⟩
  rw [hT] at h1 h2
  simp only at h1 h2
  subst h1 h2
  simp only [List.nil_append]
  rcases p.podLister.ListPod (hostSelectors conv terms) with ⟨pods, _ | err⟩
  · simp only
    by_cases hp : pods.length = 0
    · have : pods = [] := List.length_eq_zero.mp hp
      subst this
      simp [podNodeMap, hostMapOf]
    · rw [if_neg hp, if_neg hp, hostMapOfTraced_eq, expandNodeMapTraced_eq]
      simp [finalNodeMap]
  · simp

theorem FilterTraced_convert_error (conv : Option LS → Sel × Option Err)
    (p : podAffinity LS Sel Err) (pod : Pod LS) (nodes : List String)
    (pre post : List (PodAffinityTerm LS)) (t : PodAffinityTerm LS) (e : Err)
    (hreq : requiredTerms pod = some (pre ++ t :: post)) (hpre : allConvert conv pre)
    (ht : t.TopologyKey = HostTopologyKey) (he : (conv t.LabelSelector).2 = some e) :
    (FilterTraced conv p pod nodes).1 = ([], some e) := by
  rw [FilterTraced_of_some conv p pod nodes _ hreq]
  have h1 := selectorLoopTraced_fst conv (pre ++ t :: post) [] ([] : List (Call LS Sel))
  rw [selectorLoop_error conv pre post t [] e hpre ht he] at h1
  rcases hT : selectorLoopTraced conv (pre ++ t :: post) [] ([] : List (Call LS Sel))
    with ⟨r, tr⟩
  rw [hT] at h1
  simp only at h1
  subst h1
  rfl

/-- The recorded filter returns what `Filter` returns. -/
theorem FilterTraced_fst (conv : Option LS → Sel × Option Err) (p : podAffinity LS Sel Err)
    (pod : Pod LS) (nodes : List String) :
    (FilterTraced conv p pod nodes).1 = Filter conv p pod nodes := by
  rcases hreq : requiredTerms pod with _ | terms
  · rw [FilterTraced_of_none conv p pod nodes hreq, Filter_of_none conv p pod nodes hreq]
  · rcases allConvert_or_split conv terms with hconv | ⟨pre, t, post, e, rfl, hpre, ht, he⟩
    · rw [FilterTraced_of_convert conv p pod nodes terms hreq hconv]
    · rw [FilterTraced_convert_error conv p pod nodes pre post t e hreq hpre ht he,
        Filter_convert_error conv p pod nodes pre post t e hreq hpre ht he]

theorem listPodCalls_append (a b : List (Call LS Sel)) :
    listPodCalls (a ++ b) = listPodCalls a ++ listPodCalls b := by
  simp [listPodCalls, List.filterMap_append]

theorem conversionCalls_append (a b : List (Call LS Sel)) :
    conversionCalls (a ++ b) = conversionCalls a ++ conversionCalls b := by
  simp [conversionCalls, List.filterMap_append]

theorem getHostCalls_append (a b : List (Call LS Sel)) :
    getHostCalls (a ++ b) = getHostCalls a ++ getHostCalls b := by
  simp [getHostCalls, List.filterMap_append]

theorem calls_map_conversion (ts : List (PodAffinityTerm LS)) :
    listPodCalls (ts.map (fun t => (Call.LabelSelectorAsSelector t.LabelSelector :
        Call LS Sel))) = [] ∧
    conversionCalls (ts.map (fun t => (Call.LabelSelectorAsSelector t.LabelSelector :
        Call LS Sel))) = ts.map (fun t => t.LabelSelector) ∧
    getHostCalls (ts.map (fun t => (Call.LabelSelectorAsSelector t.LabelSelector :
        Call LS Sel))) = [] := by
  induction ts with
  | nil => exact ⟨rfl, rfl, rfl⟩
  | cons t rest ih =>
    obtain ⟨h1, h2, h3⟩ := ih
    refine ⟨?_, ?_, ?_⟩
    · simp [listPodCalls]
    · simpa [conversionCalls] using h2
    · simp [getHostCalls]

theorem calls_map_GetHost (ns : List String) :
    listPodCalls (ns.map (Call.GetHost : String → Call LS Sel)) = [] ∧
    conversionCalls (ns.map (Call.GetHost : String → Call LS Sel)) = [] ∧
    getHostCalls (ns.map (Call.GetHost : String → Call LS Sel)) = ns := by
  induction ns with
  | nil => exact ⟨rfl, rfl, rfl⟩
  | cons n rest ih =>
    obtain ⟨h1, h2, h3⟩ := ih
    refine ⟨?_, ?_, ?_⟩
    · simp [listPodCalls]
    · simp [conversionCalls]
    · simpa [getHostCalls] using h3

theorem calls_map_GetNodes (hs : List String) :
    listPodCalls (hs.map (Call.GetNodes : String → Call LS Sel)) = [] ∧
    conversionCalls (hs.map (Call.GetNodes : String → Call LS Sel)) = [] ∧
    getHostCalls (hs.map (Call.GetNodes : String → Call LS Sel)) = [] := by
  induction hs with
  | nil => exact ⟨rfl, rfl, rfl⟩
  | cons h rest ih =>
    obtain ⟨h1, h2, h3⟩ := ih
    refine ⟨?_, ?_, ?_⟩
    · simp [listPodCalls]
    · simp [conversionCalls]
    · simp [getHostCalls]

/-- The calls of `Filter`, by kind, once every host-scoped selector converts. -/
theorem FilterTraced_calls (conv : Option LS → Sel × Option Err)
    (p : podAffinity LS Sel Err) (pod : Pod LS) (nodes : List String)
    (terms : List (PodAffinityTerm LS))
    (hreq : requiredTerms pod = some terms) (hconv : allConvert conv terms) :
    listPodCalls (FilterTraced conv p pod nodes).2 = [hostSelectors conv terms] ∧
    conversionCalls (FilterTraced conv p pod nodes).2 =
      (terms.filter hostScoped).map (fun t => t.LabelSelector) ∧
    getHostCalls (FilterTraced conv p pod nodes).2 =
      match p.podLister.ListPod (hostSelectors conv terms) with
      | (_, some _) => []
      | (pods, none) => podNodeMap pods := by
  rw [FilterTraced_of_convert conv p pod nodes terms hreq hconv]
  simp only
  obtain ⟨c1, c2, c3⟩ := @calls_map_conversion LS Sel (terms.filter hostScoped)
  rcases p.podLister.ListPod (hostSelectors conv terms) with ⟨pods, _ | err⟩
  · simp only
    obtain ⟨g1, g2, g3⟩ := @calls_map_GetHost LS Sel (podNodeMap pods)
    obtain ⟨n1, n2, n3⟩ := @calls_map_GetNodes LS Sel
      (hostMapOf p.hostCache (podNodeMap pods))
    refine ⟨?_, ?_, ?_⟩
    · rw [listPodCalls_append, listPodCalls_append, listPodCalls_append, c1, g1, n1]
      rfl
    · rw [conversionCalls_append, conversionCalls_append, conversionCalls_append, c2, g2, n2]
      simp [conversionCalls]
    · rw [getHostCalls_append, getHostCalls_append, getHostCalls_append, c3, g3, n3]
      simp [getHostCalls]
  · simp only [List.append_nil]
    refine ⟨?_, ?_, ?_⟩
    · rw [listPodCalls_append, c1]
      rfl
    · rw [conversionCalls_append, c2]
      simp [conversionCalls]
    · rw [getHostCalls_append, c3]
      rfl

end TracedLemmas

/-! ## Dependence on the candidates, the pods and the caches -/

section Dependence

variable {LS Sel Err : Type}

/-- The candidate list enters the result only through one filter, whose predicate and error
do not depend on it. -/
theorem Filter_uniform (conv : Option LS → Sel × Option Err) (p : podAffinity LS Sel Err)
    (pod : Pod LS) :
    ∃ (keep : String → Bool) (e : Option Err),
      ∀ nodes, Filter conv p pod nodes = (nodes.filter keep, e) := by
  rcases hreq : requiredTerms pod with _ | terms
  · refine ⟨fun _ => true, none, fun nodes => ?_⟩
    rw [Filter_of_none conv p pod nodes hreq]
    simp
  · rcases allConvert_or_split conv terms with hconv | ⟨pre, t, post, e, rfl, hpre, ht, he⟩
    · rcases hl : p.podLister.ListPod (hostSelectors conv terms) with ⟨pods, _ | err⟩
      · exact ⟨fun x => decide (x ∈ finalNodeMap p.hostCache pods), none, fun nodes =>
          Filter_listed conv p pod nodes terms pods hreq hconv hl⟩
      · refine ⟨fun _ => false, some err, fun nodes => ?_⟩
        rw [Filter_list_error conv p pod nodes terms err hreq hconv (by rw [hl])]
        simp
    · refine ⟨fun _ => false, some e, fun nodes => ?_⟩
      rw [Filter_convert_error conv p pod nodes pre post t e hreq hpre ht he]
      simp

theorem mem_specEligible_iff_assigned (hostCache : HostCache) (pods : List (Pod LS))
    (x : String) :
    x ∈ specEligible hostCache pods ↔
      ∃ n ∈ assignedNodes pods, x ∈ hostCache.GetNodes (hostCache.GetHost n) := by
  rw [mem_specEligible]
  constructor
  · rintro ⟨q, hq, hne, hx⟩
    exact ⟨q.Spec.NodeName, (mem_assignedNodes pods _).mpr ⟨q, hq, hne, rfl⟩, hx⟩
  · rintro ⟨n, hn, hx⟩
    obtain ⟨q, hq, hne, rfl⟩ := (mem_assignedNodes pods n).mp hn
    exact ⟨q, hq, hne, hx⟩

/-- The key set of `nodeMap` at line 103 depends on the pods only through the set of their
non-empty nodes, and on the cache only through `GetHost` and the sets `GetNodes` returns. -/
theorem mem_finalNodeMap_congr (hc1 hc2 : HostCache) (pods1 pods2 : List (Pod LS))
    (hset : ∀ x, x ∈ assignedNodes pods1 ↔ x ∈ assignedNodes pods2)
    (hhost : ∀ n, hc1.GetHost n = hc2.GetHost n)
    (hnodes : ∀ h x, x ∈ hc1.GetNodes h ↔ x ∈ hc2.GetNodes h) (x : String) :
    x ∈ finalNodeMap hc1 pods1 ↔ x ∈ finalNodeMap hc2 pods2 := by
  rw [mem_finalNodeMap, mem_finalNodeMap, mem_specEligible_iff_assigned,
    mem_specEligible_iff_assigned, hset]
  apply or_congr Iff.rfl
  constructor
  · rintro ⟨n, hn, hx⟩
    exact ⟨n, (hset n).mp hn, by rw [← hhost, ← hnodes]; exact hx⟩
  · rintro ⟨n, hn, hx⟩
    exact ⟨n, (hset n).mpr hn, by rw [hhost, hnodes]; exact hx⟩

theorem assignedNodes_filter (pods : List (Pod LS)) :
    assignedNodes (pods.filter (fun q => decide (q.Spec.NodeName ≠ ""))) = assignedNodes pods := by
  unfold assignedNodes
  rw [List.filter_filter]
  simp

/-- Visiting the keys of `nodeMap` and of `hostMap` in another order gives the same keys. -/
theorem mem_expandNodeMap_perm (hostCache : HostCache) (pods : List (Pod LS))
    (ns hs : List String) (hns : ns.Perm (podNodeMap pods))
    (hhs : hs.Perm (hostMapOf hostCache ns)) (x : String) :
    x ∈ expandNodeMap hostCache hs (podNodeMap pods) ↔ x ∈ finalNodeMap hostCache pods := by
  unfold finalNodeMap
  rw [mem_expandNodeMap, mem_expandNodeMap]
  apply or_congr Iff.rfl
  constructor
  · rintro ⟨h, hh, hx⟩
    obtain ⟨n, hn, rfl⟩ := (mem_hostMapOf hostCache ns h).mp (hhs.mem_iff.mp hh)
    exact ⟨hostCache.GetHost n,
      (mem_hostMapOf hostCache _ _).mpr ⟨n, hns.mem_iff.mp hn, rfl⟩, hx⟩
  · rintro ⟨h, hh, hx⟩
    obtain ⟨n, hn, rfl⟩ := (mem_hostMapOf hostCache _ h).mp hh
    exact ⟨hostCache.GetHost n,
      hhs.mem_iff.mpr ((mem_hostMapOf hostCache ns _).mpr ⟨n, hns.mem_iff.mpr hn, rfl⟩), hx⟩

theorem not_mem_podNodeMap_empty (pods : List (Pod LS)) : "" ∉ podNodeMap pods := by
  intro h
  obtain ⟨q, _, hne, hq⟩ := (mem_podNodeMap pods "").mp h
  exact hne hq

end Dependence

/-! ## The contract of `Filter` -/

section Contract

variable {LS Sel Err : Type}

/-- C1 (subset law).  For every pod, candidate list, pod lister and host cache, the list
returned by `Filter` is a subsequence of the candidate list, whether or not an error is
returned. -/
theorem Filter_sublist (conv : Option LS → Sel × Option Err) (p : podAffinity LS Sel Err)
    (pod : Pod LS) (nodes : List String) :
    List.Sublist (Filter conv p pod nodes).1 nodes := by
  rcases hreq : requiredTerms pod with _ | terms
  · rw [Filter_of_none conv p pod nodes hreq]
  · rcases allConvert_or_split conv terms with hconv | ⟨pre, t, post, e, rfl, hpre, ht, he⟩
    · rw [Filter_of_convert conv p pod nodes terms hreq hconv]
      rcases p.podLister.ListPod (hostSelectors conv terms) with ⟨pods, _ | err⟩
      · exact List.filter_sublist nodes
      · exact List.nil_sublist nodes
    · rw [Filter_convert_error conv p pod nodes pre post t e hreq hpre ht he]
      exact List.nil_sublist nodes

/-- C2, as the specification states it, fails.  One matched pod is assigned to `n1` and no
host owns a node, so the set `E` of the specification is empty; `Filter` still keeps the
candidate `n1`, because the nodes of the matched pods are keys of `nodeMap` from the start. -/
theorem Filter_ne_filter_specEligible :
    requiredTerms (Scenario.podWith [Scenario.hostTerm]) = some [Scenario.hostTerm] ∧
    allConvert Scenario.convOk [Scenario.hostTerm] ∧
    (Scenario.filterOf [Scenario.podOn "n1"] none Scenario.cacheEmpty).podLister.ListPod
        (hostSelectors Scenario.convOk [Scenario.hostTerm]) = ([Scenario.podOn "n1"], none) ∧
    Filter Scenario.convOk (Scenario.filterOf [Scenario.podOn "n1"] none Scenario.cacheEmpty)
        (Scenario.podWith [Scenario.hostTerm]) ["n1"] = (["n1"], none) ∧
    specEligible Scenario.cacheEmpty [Scenario.podOn "n1"] = [] ∧
    Filter Scenario.convOk (Scenario.filterOf [Scenario.podOn "n1"] none Scenario.cacheEmpty)
        (Scenario.podWith [Scenario.hostTerm]) ["n1"] ≠
      (["n1"].filter
        (fun x => decide (x ∈ specEligible Scenario.cacheEmpty [Scenario.podOn "n1"])), none) := by
  refine ⟨rfl, by decide, rfl, rfl, rfl, ?_⟩
  decide

/-- C2, amended.  For every pod whose required term list is present and whose host-scoped
selectors all convert, if `ListPod` on the host-scoped selectors returns the pods `pods` and
no error, then `Filter` returns no error and its result is the candidate list filtered, in
order, by membership in the union of the non-empty assigned nodes of the matched pods with
the set `E` of the specification.  For an empty pod list both sides are empty. -/
theorem Filter_eq_filter_eligible (conv : Option LS → Sel × Option Err)
    (p : podAffinity LS Sel Err) (pod : Pod LS) (nodes : List String)
    (terms : List (PodAffinityTerm LS)) (pods : List (Pod LS))
    (hreq : requiredTerms pod = some terms) (hconv : allConvert conv terms)
    (hlist : p.podLister.ListPod (hostSelectors conv terms) = (pods, none)) :
    Filter conv p pod nodes =
      (nodes.filter
        (fun x => decide (x ∈ assignedNodes pods ++ specEligible p.hostCache pods)), none) := by
  rw [Filter_listed conv p pod nodes terms pods hreq hconv hlist]
  congr 1
  apply List.filter_congr
  intro x _
  rw [decide_eq_decide, mem_finalNodeMap, List.mem_append]

/-- C2, amended, on scenario 1 of the specification. -/
theorem Filter_eq_filter_eligible_witness :
    requiredTerms (Scenario.podWith [Scenario.hostTerm]) = some [Scenario.hostTerm] ∧
    allConvert Scenario.convOk [Scenario.hostTerm] ∧
    Filter Scenario.convOk (Scenario.filterOf [Scenario.podOn "n1"] none Scenario.cache)
        (Scenario.podWith [Scenario.hostTerm]) ["n1", "n2", "n3"] =
      (["n1", "n2", "n3"].filter (fun x => decide (x ∈ assignedNodes [Scenario.podOn "n1"] ++
        specEligible Scenario.cache [Scenario.podOn "n1"])), none) :=
  ⟨rfl, by decide,
    Filter_eq_filter_eligible Scenario.convOk
      (Scenario.filterOf [Scenario.podOn "n1"] none Scenario.cache)
      (Scenario.podWith [Scenario.hostTerm]) ["n1", "n2", "n3"] [Scenario.hostTerm]
      [Scenario.podOn "n1"] rfl (by decide) rfl⟩

/-- C3 (host-broadening law).  For every pod whose required term list is present, whose
host-scoped selectors all convert and for which `ListPod` returns no error: if a matched pod
is assigned to a non-empty node `A` and `B` is in `GetNodes (GetHost A)`, then `Filter`
returns no error and keeps every candidate equal to `B`.  In particular, for candidates
`[n1, n2, n3]`, one matched pod on `n1`, `n1` on `h1` and `h1` owning `n1` and `n2`, the
result is `[n1, n2]`. -/
theorem Filter_host_broadening (conv : Option LS → Sel × Option Err)
    (p : podAffinity LS Sel Err) (pod : Pod LS) (nodes : List String)
    (terms : List (PodAffinityTerm LS)) (pods : List (Pod LS)) (q : Pod LS) (A B : String)
    (hreq : requiredTerms pod = some terms) (hconv : allConvert conv terms)
    (hlist : p.podLister.ListPod (hostSelectors conv terms) = (pods, none))
    (hq : q ∈ pods) (hA : q.Spec.NodeName = A) (hne : A ≠ "")
    (hB : B ∈ p.hostCache.GetNodes (p.hostCache.GetHost A)) :
    (Filter conv p pod nodes).2 = none ∧
    List.count B (Filter conv p pod nodes).1 = List.count B nodes ∧
    (B ∈ nodes → B ∈ (Filter conv p pod nodes).1) ∧
    (nodes = ["n1", "n2", "n3"] → pods = [q] → A = "n1" →
      p.hostCache.GetHost "n1" = "h1" → p.hostCache.GetNodes "h1" = ["n1", "n2"] →
      Filter conv p pod nodes = (["n1", "n2"], none)) := by
  have hF := Filter_listed conv p pod nodes terms pods hreq hconv hlist
  have hmem : B ∈ finalNodeMap p.hostCache pods := by
    rw [mem_finalNodeMap, mem_specEligible]
    subst hA
    exact Or.inr ⟨q, hq, hne, hB⟩
  have hcount : List.count B (Filter conv p pod nodes).1 = List.count B nodes := by
    rw [hF]
    simp only
    rw [List.count_filter]
    exact decide_eq_true hmem
  refine ⟨by rw [hF], hcount, ?_, ?_⟩
  · intro hBn
    rw [← List.count_pos_iff, hcount, List.count_pos_iff]
    exact hBn
  · intro hnodes hpods hA1 hhost hown
    subst hnodes hpods hA1
    rw [hF]
    congr 1
    have hfin : ∀ x, x ∈ finalNodeMap p.hostCache [q] ↔ x = "n1" ∨ x = "n2" := by
      intro x
      rw [mem_finalNodeMap, mem_assignedNodes, mem_specEligible]
      simp only [List.mem_singleton, exists_eq_left, hA, hhost, hown, List.mem_cons,
        List.not_mem_nil, or_false]
      constructor
      · rintro (⟨_, h⟩ | ⟨_, h⟩)
        · exact Or.inl h.symm
        · exact h
      · intro h
        exact Or.inr ⟨hne, h⟩
    have h1 : decide ("n1" ∈ finalNodeMap p.hostCache [q]) = true :=
      decide_eq_true ((hfin "n1").mpr (Or.inl rfl))
    have h2 : decide ("n2" ∈ finalNodeMap p.hostCache [q]) = true :=
      decide_eq_true ((hfin "n2").mpr (Or.inr rfl))
    have h3 : decide ("n3" ∈ finalNodeMap p.hostCache [q]) = false :=
      decide_eq_false (fun h => by
        rcases (hfin "n3").mp h with h | h
        · exact absurd h (by decide)
        · exact absurd h (by decide))
    simp only [List.filter_cons, List.filter_nil, h1, h2, h3, if_true, Bool.false_eq_true,
      if_false]

/-- C3 on scenario 1 of the specification, with `A = n1` and `B = n2`. -/
theorem Filter_host_broadening_witness :
    Scenario.cache.GetNodes (Scenario.cache.GetHost "n1") = ["n1", "n2"] ∧
    Filter Scenario.convOk (Scenario.filterOf [Scenario.podOn "n1"] none Scenario.cache)
        (Scenario.podWith [Scenario.hostTerm]) ["n1", "n2", "n3"] = (["n1", "n2"], none) :=
  ⟨rfl,
    (Filter_host_broadening Scenario.convOk
      (Scenario.filterOf [Scenario.podOn "n1"] none Scenario.cache)
      (Scenario.podWith [Scenario.hostTerm]) ["n1", "n2", "n3"] [Scenario.hostTerm]
      [Scenario.podOn "n1"] (Scenario.podOn "n1") "n1" "n2" rfl (by decide) rfl
      (by simp) rfl (by decide) (by decide)).2.2.2 rfl rfl rfl rfl rfl⟩

/-- C4 (unsatisfiable-required law).  For every pod whose required term list is present and
whose host-scoped selectors all convert, and every candidate list: if `ListPod` returns zero
pods and no error for the combined selector, `Filter` returns the empty list and no error.
The law needs no host-scoped term to be present. -/
theorem Filter_no_matched_pod (conv : Option LS → Sel × Option Err)
    (p : podAffinity LS Sel Err) (pod : Pod LS) (nodes : List String)
    (terms : List (PodAffinityTerm LS))
    (hreq : requiredTerms pod = some terms) (hconv : allConvert conv terms)
    (hlist : p.podLister.ListPod (hostSelectors conv terms) = ([], none)) :
    Filter conv p pod nodes = ([], none) := by
  rw [Filter_listed conv p pod nodes terms [] hreq hconv hlist, finalNodeMap_nil]
  simp

/-- C4 on scenario 2 of the specification: no pod matches, every candidate is rejected. -/
theorem Filter_no_matched_pod_witness :
    requiredTerms (Scenario.podWith [Scenario.hostTerm]) = some [Scenario.hostTerm] ∧
    allConvert Scenario.convOk [Scenario.hostTerm] ∧
    Filter Scenario.convOk (Scenario.filterOf [] none Scenario.cache)
        (Scenario.podWith [Scenario.hostTerm]) ["n1", "n2", "n3"] = ([], none) :=
  ⟨rfl, by decide,
    Filter_no_matched_pod Scenario.convOk (Scenario.filterOf [] none Scenario.cache)
      (Scenario.podWith [Scenario.hostTerm]) ["n1", "n2", "n3"] [Scenario.hostTerm]
      rfl (by decide) rfl⟩

/-- C5 (no-op for absent affinity).  For every pod whose affinity specification is absent, or
whose pod-affinity section is absent, or whose required term list is absent, and for every
candidate list and collaborators, `Filter` returns the candidate list and a `nil` error. -/
theorem Filter_absent_affinity (conv : Option LS → Sel × Option Err)
    (p : podAffinity LS Sel Err) (pod : Pod LS) (nodes : List String)
    (h : pod.Spec.Affinity = none ∨
      (∃ a, pod.Spec.Affinity = some a ∧ a.PodAffinity = none) ∨
      (∃ a pa, pod.Spec.Affinity = some a ∧ a.PodAffinity = some pa ∧
        pa.RequiredDuringSchedulingIgnoredDuringExecution = none)) :
    Filter conv p pod nodes = (nodes, none) :=
  Filter_of_none conv p pod nodes ((requiredTerms_eq_none_iff pod).mpr h)

/-- C5 on a pod without affinity specification, with a lister that would fail. -/
theorem Filter_absent_affinity_witness :
    (Scenario.podOn "n1").Spec.Affinity = none ∧
    Filter Scenario.convStrict (Scenario.filterOf [] (some "unavailable") Scenario.cache)
      (Scenario.podOn "n1") ["n1", "n2", "n3"] = (["n1", "n2", "n3"], none) :=
  ⟨rfl,
    Filter_absent_affinity Scenario.convStrict
      (Scenario.filterOf [] (some "unavailable") Scenario.cache) (Scenario.podOn "n1")
      ["n1", "n2", "n3"] (Or.inl rfl)⟩

/-- C6: the code departs from the no-op law for non-host-scoped terms.  The pod has one
required term, scoped to `zone`, the lister returns no pod and the candidate is `n1`.  The law
asks for `([n1], nil)`; `Filter` skips the term, calls `ListPod` on the empty selector list and
returns the empty list.  On the same input with a `nil` term list the guard of lines 48-52
returns `([n1], nil)`. -/
theorem Filter_no_host_term_not_noop :
    requiredTerms (Scenario.podWith [Scenario.zoneTerm]) = some [Scenario.zoneTerm] ∧
    (∀ t ∈ [Scenario.zoneTerm], t.TopologyKey ≠ HostTopologyKey) ∧
    Filter Scenario.convOk (Scenario.filterOf [] none Scenario.cache)
        (Scenario.podWith [Scenario.zoneTerm]) ["n1"] = ([], none) ∧
    Filter Scenario.convOk (Scenario.filterOf [] none Scenario.cache)
        (Scenario.podWith [Scenario.zoneTerm]) ["n1"] ≠ (["n1"], none) ∧
    Filter Scenario.convOk (Scenario.filterOf [] none Scenario.cache)
        Scenario.podNilTerms ["n1"] = (["n1"], none) := by
  refine ⟨rfl, by decide, rfl, by decide, rfl⟩

/-- C7: the code departs from the no-op for zero required terms.  The required term list is
present with length zero, the lister returns no pod and the candidate is `n1`.  The
specification asks for `([n1], nil)`; the guard of lines 48-52 compares the list with `nil`,
not its length, lets the empty list pass, and `Filter` returns the empty list.  With a `nil`
term list the same guard returns `([n1], nil)`. -/
theorem Filter_zero_terms_not_noop :
    requiredTerms (Scenario.podWith []) = some [] ∧
    Filter Scenario.convOk (Scenario.filterOf [] none Scenario.cache)
        (Scenario.podWith []) ["n1"] = ([], none) ∧
    Filter Scenario.convOk (Scenario.filterOf [] none Scenario.cache)
        (Scenario.podWith []) ["n1"] ≠ (["n1"], none) ∧
    requiredTerms Scenario.podNilTerms = none ∧
    Filter Scenario.convOk (Scenario.filterOf [] none Scenario.cache)
        Scenario.podNilTerms ["n1"] = (["n1"], none) := by
  refine ⟨rfl, rfl, by decide, rfl, rfl⟩

/-- C8 (selector conversion failure).  For every pod whose required term list contains a
host-scoped term whose label selector fails to convert, the list splits at its first such
term `t`, with conversion error `e`: every host-scoped term before `t` converts, and for
every pod lister, host cache and candidate list `Filter` returns the empty list with `e`. -/
theorem Filter_conversion_failure (conv : Option LS → Sel × Option Err) (pod : Pod LS)
    (terms : List (PodAffinityTerm LS)) (hreq : requiredTerms pod = some terms)
    (hfail : ∃ t ∈ terms, t.TopologyKey = HostTopologyKey ∧ (conv t.LabelSelector).2 ≠ none) :
    ∃ pre t post e, terms = pre ++ t :: post ∧ allConvert conv pre ∧
      t.TopologyKey = HostTopologyKey ∧ (conv t.LabelSelector).2 = some e ∧
      ∀ (p : podAffinity LS Sel Err) (nodes : List String),
        Filter conv p pod nodes = ([], some e) := by
  rcases allConvert_or_split conv terms with hconv | ⟨pre, t, post, e, rfl, hpre, ht, he⟩
  · obtain ⟨t, ht, hk, hne⟩ := hfail
    exact absurd (hconv t ht hk) hne
  · exact ⟨pre, t, post, e, rfl, hpre, ht, he, fun p nodes =>
      Filter_convert_error conv p pod nodes pre post t e hreq hpre ht he⟩

/-- C8 on a term list whose first failing host-scoped term has selector `17`: the `zone`
term before it is never converted and the error is the one of selector `17`. -/
theorem Filter_conversion_failure_witness :
    (∃ t ∈ Scenario.mixedTerms,
      t.TopologyKey = HostTopologyKey ∧ (Scenario.convStrict t.LabelSelector).2 ≠ none) ∧
    (∃ pre t post e, Scenario.mixedTerms = pre ++ t :: post ∧
      allConvert Scenario.convStrict pre ∧ t.TopologyKey = HostTopologyKey ∧
      (Scenario.convStrict t.LabelSelector).2 = some e ∧
      ∀ (p : podAffinity Nat Nat String) (nodes : List String),
        Filter Scenario.convStrict p (Scenario.podWith Scenario.mixedTerms) nodes
          = ([], some e)) ∧
    Filter Scenario.convStrict (Scenario.filterOf [Scenario.podOn "n1"] none Scenario.cache)
      (Scenario.podWith Scenario.mixedTerms) ["n1", "n2", "n3"]
        = ([], some "malformed selector 17") :=
  ⟨⟨⟨some 17, "host"⟩, by simp [Scenario.mixedTerms], rfl, by decide⟩,
    Filter_conversion_failure Scenario.convStrict (Scenario.podWith Scenario.mixedTerms)
      Scenario.mixedTerms rfl
      ⟨⟨some 17, "host"⟩, by simp [Scenario.mixedTerms], rfl, by decide⟩,
    rfl⟩

/-- C9 (pod-discovery failure).  For every pod whose required term list is present and whose
host-scoped selectors all convert, if `ListPod` returns the error `e`, with any pod list, then
for every host cache and every candidate list `Filter` returns the empty list with `e`. -/
theorem Filter_discovery_failure (conv : Option LS → Sel × Option Err)
    (podLister : PodLister LS Sel Err) (hostCache : HostCache) (pod : Pod LS)
    (nodes : List String) (terms : List (PodAffinityTerm LS)) (e : Err)
    (hreq : requiredTerms pod = some terms) (hconv : allConvert conv terms)
    (hlist : (podLister.ListPod (hostSelectors conv terms)).2 = some e) :
    Filter conv (NewPodAffinity podLister hostCache) pod nodes = ([], some e) :=
  Filter_list_error conv (NewPodAffinity podLister hostCache) pod nodes terms e hreq hconv hlist

/-- C9 on scenario 5 of the specification, with a lister that returns a pod on `n1` together
with its error: the pod is not looked at. -/
theorem Filter_discovery_failure_witness :
    requiredTerms (Scenario.podWith [Scenario.hostTerm]) = some [Scenario.hostTerm] ∧
    allConvert Scenario.convOk [Scenario.hostTerm] ∧
    ((Scenario.lister [Scenario.podOn "n1"] (some "unavailable")).ListPod
      (hostSelectors Scenario.convOk [Scenario.hostTerm])).2 = some "unavailable" ∧
    Filter Scenario.convOk
      (NewPodAffinity (Scenario.lister [Scenario.podOn "n1"] (some "unavailable"))
        Scenario.cache)
      (Scenario.podWith [Scenario.hostTerm]) ["n1", "n2", "n3"] = ([], some "unavailable") :=
  ⟨rfl, by decide, rfl,
    Filter_discovery_failure Scenario.convOk
      (Scenario.lister [Scenario.podOn "n1"] (some "unavailable")) Scenario.cache
      (Scenario.podWith [Scenario.hostTerm]) ["n1", "n2", "n3"] [Scenario.hostTerm]
      "unavailable" rfl (by decide) rfl⟩

/-- C10 (errors exactly when stated).  For every pod, candidate list and collaborators,
`Filter` returns a non-`nil` error if and only if the required term list is present and either
the label selector of some host-scoped term fails to convert, or all host-scoped conversions
succeed and `ListPod`, on the host-scoped selectors, returns an error.  The host cache does
not occur in the condition. -/
theorem Filter_error_iff (conv : Option LS → Sel × Option Err) (p : podAffinity LS Sel Err)
    (pod : Pod LS) (nodes : List String) :
    (Filter conv p pod nodes).2 ≠ none ↔
      ∃ terms, requiredTerms pod = some terms ∧
        ((∃ t ∈ terms, t.TopologyKey = HostTopologyKey ∧ (conv t.LabelSelector).2 ≠ none) ∨
         (allConvert conv terms ∧
           (p.podLister.ListPod (hostSelectors conv terms)).2 ≠ none)) := by
  rcases hreq : requiredTerms pod with _ | terms
  · rw [Filter_of_none conv p pod nodes hreq]
    simp
  · simp only [Option.some.injEq, exists_eq_left']
    rcases allConvert_or_split conv terms with hconv | ⟨pre, t, post, e, rfl, hpre, ht, he⟩
    · rw [Filter_of_convert conv p pod nodes terms hreq hconv]
      have hno : ¬ ∃ t ∈ terms,
          t.TopologyKey = HostTopologyKey ∧ (conv t.LabelSelector).2 ≠ none := by
        rintro ⟨t, ht, hk, hne⟩
        exact hne (hconv t ht hk)
      rcases p.podLister.ListPod (hostSelectors conv terms) with ⟨pods, _ | err⟩
      · constructor
        · intro h
          exact absurd rfl h
        · rintro (h | ⟨_, h⟩)
          · exact absurd h hno
          · exact absurd rfl h
      · constructor
        · intro _
          exact Or.inr ⟨hconv, by simp⟩
        · intro _
          simp
    · rw [Filter_convert_error conv p pod nodes pre post t e hreq hpre ht he]
      constructor
      · intro _
        refine Or.inl ⟨t, by simp, ht, ?_⟩
        rw [he]
        simp
      · intro _
        simp

/-- C11, as the specification states it, fails.  The matched pod is on `n1`, the cache knows
no host, so `n1` is in no `GetNodes (GetHost m)`; the candidate `n1` is kept all the same. -/
theorem Filter_keeps_node_of_unknown_host :
    requiredTerms (Scenario.podWith [Scenario.hostTerm]) = some [Scenario.hostTerm] ∧
    allConvert Scenario.convOk [Scenario.hostTerm] ∧
    (Scenario.filterOf [Scenario.podOn "n1"] none Scenario.cacheUnknown).podLister.ListPod
        (hostSelectors Scenario.convOk [Scenario.hostTerm]) = ([Scenario.podOn "n1"], none) ∧
    "n1" ∉ Scenario.cacheUnknown.GetNodes (Scenario.cacheUnknown.GetHost "n1") ∧
    Filter Scenario.convOk (Scenario.filterOf [Scenario.podOn "n1"] none Scenario.cacheUnknown)
        (Scenario.podWith [Scenario.hostTerm]) ["n1", "n2"] = (["n1"], none) ∧
    "n1" ∈ (Filter Scenario.convOk
        (Scenario.filterOf [Scenario.podOn "n1"] none Scenario.cacheUnknown)
        (Scenario.podWith [Scenario.hostTerm]) ["n1", "n2"]).1 := by
  refine ⟨rfl, by decide, rfl, by decide, rfl, by decide⟩

/-- C11, amended.  For every pod that reaches host resolution, if the node `n` of a matched
pod is not in `GetNodes (GetHost n)` and not in `GetNodes (GetHost m)` for any other matched
node `m`, then `Filter` returns no error and the cache contributes no membership for `n` (it
is not in the set `E` of the specification); `n` is eligible all the same, as the node of a
matched pod, and every candidate equal to `n` is kept. -/
theorem Filter_unknown_host (conv : Option LS → Sel × Option Err)
    (p : podAffinity LS Sel Err) (pod : Pod LS) (nodes : List String)
    (terms : List (PodAffinityTerm LS)) (pods : List (Pod LS)) (q : Pod LS) (n : String)
    (hreq : requiredTerms pod = some terms) (hconv : allConvert conv terms)
    (hlist : p.podLister.ListPod (hostSelectors conv terms) = (pods, none))
    (hq : q ∈ pods) (hn : q.Spec.NodeName = n) (hne : n ≠ "")
    (hown : n ∉ p.hostCache.GetNodes (p.hostCache.GetHost n))
    (hother : ∀ r ∈ pods, r.Spec.NodeName ≠ "" → r.Spec.NodeName ≠ n →
      n ∉ p.hostCache.GetNodes (p.hostCache.GetHost r.Spec.NodeName)) :
    (Filter conv p pod nodes).2 = none ∧
    n ∉ specEligible p.hostCache pods ∧
    List.count n (Filter conv p pod nodes).1 = List.count n nodes ∧
    (n ∈ nodes → n ∈ (Filter conv p pod nodes).1) := by
  have hF := Filter_listed conv p pod nodes terms pods hreq hconv hlist
  have hmem : n ∈ finalNodeMap p.hostCache pods := by
    rw [mem_finalNodeMap, mem_assignedNodes]
    exact Or.inl ⟨q, hq, by rw [hn]; exact hne, hn⟩
  have hcount : List.count n (Filter conv p pod nodes).1 = List.count n nodes := by
    rw [hF]
    simp only
    rw [List.count_filter]
    exact decide_eq_true hmem
  refine ⟨by rw [hF], ?_, hcount, ?_⟩
  · rw [mem_specEligible]
    rintro ⟨r, hr, hrne, hx⟩
    by_cases hrn : r.Spec.NodeName = n
    · rw [hrn] at hx
      exact hown hx
    · exact hother r hr hrne hrn hx
  · intro hin
    rw [← List.count_pos_iff, hcount, List.count_pos_iff]
    exact hin

/-- C11, amended, on a cache that knows no host: the node `n1` of the matched pod stays. -/
theorem Filter_unknown_host_witness :
    "n1" ∉ Scenario.cacheUnknown.GetNodes (Scenario.cacheUnknown.GetHost "n1") ∧
    "n1" ∉ specEligible Scenario.cacheUnknown [Scenario.podOn "n1"] ∧
    List.count "n1" (Filter Scenario.convOk
        (Scenario.filterOf [Scenario.podOn "n1"] none Scenario.cacheUnknown)
        (Scenario.podWith [Scenario.hostTerm]) ["n1", "n2"]).1 = List.count "n1" ["n1", "n2"] :=
  have h := Filter_unknown_host Scenario.convOk
    (Scenario.filterOf [Scenario.podOn "n1"] none Scenario.cacheUnknown)
    (Scenario.podWith [Scenario.hostTerm]) ["n1", "n2"] [Scenario.hostTerm]
    [Scenario.podOn "n1"] (Scenario.podOn "n1") "n1" rfl (by decide) rfl (by simp) rfl
    (by decide) (by decide) (by
      intro r hr _ hrn
      rw [List.mem_singleton] at hr
      subst hr
      exact absurd rfl hrn)
  ⟨by decide, h.2.1, h.2.2.1⟩

/-- C12: the code queries the pod lister although no term is host-scoped.  The pod has one
required term, scoped to `zone`.  The specification asks for no call to `ListPod`; the
recorded calls of `Filter` are one `ListPod`, on the empty selector list.  With a `nil` term
list no call is recorded. -/
theorem FilterTraced_no_host_term_lists :
    requiredTerms (Scenario.podWith [Scenario.zoneTerm]) = some [Scenario.zoneTerm] ∧
    (∀ t ∈ [Scenario.zoneTerm], t.TopologyKey ≠ HostTopologyKey) ∧
    (FilterTraced Scenario.convOk (Scenario.filterOf [] none Scenario.cache)
        (Scenario.podWith [Scenario.zoneTerm]) ["n1"]).2 = [Call.ListPod []] ∧
    listPodCalls (FilterTraced Scenario.convOk (Scenario.filterOf [] none Scenario.cache)
        (Scenario.podWith [Scenario.zoneTerm]) ["n1"]).2 ≠ [] ∧
    (FilterTraced Scenario.convOk (Scenario.filterOf [] none Scenario.cache)
        Scenario.podNilTerms ["n1"]).2 = [] := by
  refine ⟨rfl, by decide, rfl, by decide, rfl⟩

/-- C13 (selector construction).  For every pod whose required term list is present and whose
host-scoped selectors all convert, `Filter` calls `ListPod` once, on the converted label
selectors of the terms whose topology key is `host`, in term order; the conversion is called
on the label selectors of exactly those terms, in term order, so a term with another key is
never converted; and the error of `Filter` is the error of that `ListPod` call, whatever the
selectors of the other terms are. -/
theorem FilterTraced_selectors (conv : Option LS → Sel × Option Err)
    (p : podAffinity LS Sel Err) (pod : Pod LS) (nodes : List String)
    (terms : List (PodAffinityTerm LS))
    (hreq : requiredTerms pod = some terms)
    (hconv : ∀ t ∈ terms, t.TopologyKey = HostTopologyKey → (conv t.LabelSelector).2 = none) :
    (FilterTraced conv p pod nodes).1 = Filter conv p pod nodes ∧
    listPodCalls (FilterTraced conv p pod nodes).2 =
      [(terms.filter (fun t => decide (t.TopologyKey = HostTopologyKey))).map
        (fun t => (conv t.LabelSelector).1)] ∧
    conversionCalls (FilterTraced conv p pod nodes).2 =
      (terms.filter (fun t => decide (t.TopologyKey = HostTopologyKey))).map
        (fun t => t.LabelSelector) ∧
    (Filter conv p pod nodes).2 =
      (p.podLister.ListPod
        ((terms.filter (fun t => decide (t.TopologyKey = HostTopologyKey))).map
          (fun t => (conv t.LabelSelector).1))).2 := by
  obtain ⟨h1, h2, _⟩ := FilterTraced_calls conv p pod nodes terms hreq hconv
  refine ⟨FilterTraced_fst conv p pod nodes, h1, h2, ?_⟩
  rw [Filter_of_convert conv p pod nodes terms hreq hconv]
  change _ = (p.podLister.ListPod (hostSelectors conv terms)).2
  rcases p.podLister.ListPod (hostSelectors conv terms) with ⟨pods, _ | err⟩
  · rfl
  · rfl

/-- C13 on a `zone` term with a selector that does not convert, followed by a host-scoped
term: the selector `13` is never converted, `ListPod` receives the selector of the host-scoped
term alone, and no error is returned. -/
theorem FilterTraced_selectors_witness :
    (Scenario.convStrict (some 13)).2 ≠ none ∧
    listPodCalls (FilterTraced Scenario.convStrict
        (Scenario.filterOf [Scenario.podOn "n1"] none Scenario.cache)
        (Scenario.podWith Scenario.zoneMalformedTerms) ["n1", "n2", "n3"]).2 = [[1]] ∧
    conversionCalls (FilterTraced Scenario.convStrict
        (Scenario.filterOf [Scenario.podOn "n1"] none Scenario.cache)
        (Scenario.podWith Scenario.zoneMalformedTerms) ["n1", "n2", "n3"]).2 = [some 1] ∧
    (Filter Scenario.convStrict (Scenario.filterOf [Scenario.podOn "n1"] none Scenario.cache)
        (Scenario.podWith Scenario.zoneMalformedTerms) ["n1", "n2", "n3"]).2 = none :=
  have h := FilterTraced_selectors Scenario.convStrict
    (Scenario.filterOf [Scenario.podOn "n1"] none Scenario.cache)
    (Scenario.podWith Scenario.zoneMalformedTerms) ["n1", "n2", "n3"]
    Scenario.zoneMalformedTerms rfl (by decide)
  ⟨by decide, h.2.1, h.2.2.1, h.2.2.2⟩

/-- C14 (unscheduled matches are ignored).  For every pod that reaches host resolution,
`GetHost` is never called on the empty node name, the result is the one obtained from the
matched pods that have a non-empty assigned node, and if every matched pod has an empty
assigned node the result is the empty list with no error, for every candidate list and host
cache. -/
theorem Filter_ignores_unscheduled (conv : Option LS → Sel × Option Err)
    (podLister : PodLister LS Sel Err) (hostCache : HostCache) (pod : Pod LS)
    (nodes : List String) (terms : List (PodAffinityTerm LS)) (pods : List (Pod LS))
    (hreq : requiredTerms pod = some terms) (hconv : allConvert conv terms)
    (hlist : podLister.ListPod (hostSelectors conv terms) = (pods, none)) :
    "" ∉ getHostCalls (FilterTraced conv (NewPodAffinity podLister hostCache) pod nodes).2 ∧
    Filter conv (NewPodAffinity podLister hostCache) pod nodes =
      (nodes.filter (fun x => decide (x ∈ finalNodeMap hostCache
        (pods.filter (fun q => decide (q.Spec.NodeName ≠ ""))))), none) ∧
    ((∀ q ∈ pods, q.Spec.NodeName = "") →
      Filter conv (NewPodAffinity podLister hostCache) pod nodes = ([], none)) := by
  have hl : (NewPodAffinity podLister hostCache).podLister.ListPod (hostSelectors conv terms)
      = (pods, none) := hlist
  have hF := Filter_listed conv (NewPodAffinity podLister hostCache) pod nodes terms pods
    hreq hconv hl
  have hfin : ∀ x, x ∈ finalNodeMap hostCache pods ↔
      x ∈ finalNodeMap hostCache (pods.filter (fun q => decide (q.Spec.NodeName ≠ ""))) := by
    intro x
    exact mem_finalNodeMap_congr hostCache hostCache pods _
      (fun y => by rw [assignedNodes_filter]) (fun _ => rfl) (fun _ _ => Iff.rfl) x
  refine ⟨?_, ?_, ?_⟩
  · obtain ⟨_, _, h3⟩ := FilterTraced_calls conv (NewPodAffinity podLister hostCache) pod
      nodes terms hreq hconv
    rw [h3, hl]
    exact not_mem_podNodeMap_empty pods
  · rw [hF]
    congr 1
    apply List.filter_congr
    intro x _
    rw [decide_eq_decide]
    exact hfin x
  · intro hall
    rw [hF]
    congr 1
    rw [List.filter_eq_nil_iff]
    intro x _
    rw [decide_eq_true_eq, mem_finalNodeMap, mem_assignedNodes, mem_specEligible]
    rintro (⟨q, hq, hne, _⟩ | ⟨q, hq, hne, _⟩)
    · exact hne (hall q hq)
    · exact hne (hall q hq)

/-- C14 on a lister that returns two unscheduled pods: nothing is eligible, and `GetHost` is
not called at all. -/
theorem Filter_ignores_unscheduled_witness :
    getHostCalls (FilterTraced Scenario.convOk
      (NewPodAffinity (Scenario.lister [Scenario.podUnscheduled, Scenario.podUnscheduled] none)
        Scenario.cache)
      (Scenario.podWith [Scenario.hostTerm]) ["n1", "n2", "n3", ""]).2 = [] ∧
    Filter Scenario.convOk
      (NewPodAffinity (Scenario.lister [Scenario.podUnscheduled, Scenario.podUnscheduled] none)
        Scenario.cache)
      (Scenario.podWith [Scenario.hostTerm]) ["n1", "n2", "n3", ""] = ([], none) :=
  ⟨rfl,
    (Filter_ignores_unscheduled Scenario.convOk
      (Scenario.lister [Scenario.podUnscheduled, Scenario.podUnscheduled] none) Scenario.cache
      (Scenario.podWith [Scenario.hostTerm]) ["n1", "n2", "n3", ""] [Scenario.hostTerm]
      [Scenario.podUnscheduled, Scenario.podUnscheduled] rfl (by decide) rfl).2.2
      (by
        intro q hq
        simp only [List.mem_cons, List.mem_singleton, List.not_mem_nil, or_false, or_self] at hq
        subst hq
        rfl)⟩

/-- C15 (duplicates are neither added nor removed).  For every call of `Filter`, successful or
not, and every node `x`, the number of occurrences of `x` in the result is zero or the number
of its occurrences in the candidate list; hence the result has no duplicate whenever the
candidate list has none. -/
theorem Filter_count (conv : Option LS → Sel × Option Err) (p : podAffinity LS Sel Err)
    (pod : Pod LS) (nodes : List String) :
    (∀ x, List.count x (Filter conv p pod nodes).1 = 0 ∨
      List.count x (Filter conv p pod nodes).1 = List.count x nodes) ∧
    (nodes.Nodup → (Filter conv p pod nodes).1.Nodup) := by
  obtain ⟨keep, e, hk⟩ := Filter_uniform conv p pod
  rw [hk nodes]
  constructor
  · intro x
    by_cases hx : keep x = true
    · exact Or.inr (List.count_filter hx)
    · left
      rw [List.count_eq_zero]
      intro hmem
      exact hx (List.mem_filter.mp hmem).2
  · intro hnd
    exact hnd.filter keep

/-- C15 on scenario 1 with the candidate `n2` offered twice: both occurrences are kept; and
on scenario 1 itself, where the candidates and the result have no duplicate. -/
theorem Filter_count_witness :
    List.count "n2" (Filter Scenario.convOk
      (Scenario.filterOf [Scenario.podOn "n1"] none Scenario.cache)
      (Scenario.podWith [Scenario.hostTerm]) ["n2", "n3", "n2"]).1 = 2 ∧
    ["n1", "n2", "n3"].Nodup ∧
    (Filter Scenario.convOk (Scenario.filterOf [Scenario.podOn "n1"] none Scenario.cache)
      (Scenario.podWith [Scenario.hostTerm]) ["n1", "n2", "n3"]).1.Nodup :=
  ⟨by decide, by decide,
    (Filter_count Scenario.convOk (Scenario.filterOf [Scenario.podOn "n1"] none Scenario.cache)
      (Scenario.podWith [Scenario.hostTerm]) ["n1", "n2", "n3"]).2 (by decide)⟩

/-- C16 (idempotence).  For a fixed pod, pod lister and host cache, if `Filter` returns the
list `r` and no error, then `Filter` on `r` returns `r` and no error. -/
theorem Filter_idempotent (conv : Option LS → Sel × Option Err) (p : podAffinity LS Sel Err)
    (pod : Pod LS) (nodes r : List String) (h : Filter conv p pod nodes = (r, none)) :
    Filter conv p pod r = (r, none) := by
  obtain ⟨keep, e, hk⟩ := Filter_uniform conv p pod
  rw [hk nodes] at h
  rw [hk r]
  obtain ⟨hr, he⟩ := Prod.mk.inj h
  subst hr he
  rw [List.filter_filter]
  simp

/-- C16 on scenario 1: the result `[n1, n2]` is returned unchanged. -/
theorem Filter_idempotent_witness :
    Filter Scenario.convOk (Scenario.filterOf [Scenario.podOn "n1"] none Scenario.cache)
      (Scenario.podWith [Scenario.hostTerm]) ["n1", "n2", "n3"] = (["n1", "n2"], none) ∧
    Filter Scenario.convOk (Scenario.filterOf [Scenario.podOn "n1"] none Scenario.cache)
      (Scenario.podWith [Scenario.hostTerm]) ["n1", "n2"] = (["n1", "n2"], none) :=
  ⟨rfl,
    Filter_idempotent Scenario.convOk
      (Scenario.filterOf [Scenario.podOn "n1"] none Scenario.cache)
      (Scenario.podWith [Scenario.hostTerm]) ["n1", "n2", "n3"] ["n1", "n2"] rfl⟩

/-- C17 (concatenation).  For a fixed pod and fixed collaborators and all candidate lists `a`
and `b`, `Filter` on `a ++ b` returns the result for `a` followed by the result for `b`, and
the three calls return the same error. -/
theorem Filter_append (conv : Option LS → Sel × Option Err) (p : podAffinity LS Sel Err)
    (pod : Pod LS) (a b : List String) :
    (Filter conv p pod (a ++ b)).1 = (Filter conv p pod a).1 ++ (Filter conv p pod b).1 ∧
    (Filter conv p pod (a ++ b)).2 = (Filter conv p pod a).2 ∧
    (Filter conv p pod (a ++ b)).2 = (Filter conv p pod b).2 := by
  obtain ⟨keep, e, hk⟩ := Filter_uniform conv p pod
  rw [hk (a ++ b), hk a, hk b]
  exact ⟨List.filter_append a b, rfl, rfl⟩

/-- C18 (order-independence of the intermediate sets).  For a fixed pod and candidate list,
two pod listers whose returned pods have the same set of non-empty assigned nodes, and two
host caches with the same `GetHost` whose `GetNodes` outputs agree as sets, yield the same
result; and visiting the keys of `nodeMap` and of `hostMap` in any other order yields the
same result too. -/
theorem Filter_order_independent (conv : Option LS → Sel × Option Err)
    (l1 l2 : PodLister LS Sel Err) (hc1 hc2 : HostCache) (pod : Pod LS) (nodes : List String)
    (terms : List (PodAffinityTerm LS)) (pods1 pods2 : List (Pod LS))
    (hreq : requiredTerms pod = some terms) (hconv : allConvert conv terms)
    (h1 : l1.ListPod (hostSelectors conv terms) = (pods1, none))
    (h2 : l2.ListPod (hostSelectors conv terms) = (pods2, none))
    (hset : ∀ x, x ∈ assignedNodes pods1 ↔ x ∈ assignedNodes pods2)
    (hhost : ∀ n, hc1.GetHost n = hc2.GetHost n)
    (hnodes : ∀ h x, x ∈ hc1.GetNodes h ↔ x ∈ hc2.GetNodes h) :
    Filter conv (NewPodAffinity l1 hc1) pod nodes
      = Filter conv (NewPodAffinity l2 hc2) pod nodes ∧
    ∀ ns hs : List String, ns.Perm (podNodeMap pods1) → hs.Perm (hostMapOf hc1 ns) →
      (appendPresent (expandNodeMap hc1 hs (podNodeMap pods1)) nodes [], (none : Option Err))
        = Filter conv (NewPodAffinity l1 hc1) pod nodes := by
  have e1 := Filter_listed conv (NewPodAffinity l1 hc1) pod nodes terms pods1 hreq hconv h1
  have e2 := Filter_listed conv (NewPodAffinity l2 hc2) pod nodes terms pods2 hreq hconv h2
  constructor
  · rw [e1, e2]
    congr 1
    apply List.filter_congr
    intro x _
    rw [decide_eq_decide]
    exact mem_finalNodeMap_congr hc1 hc2 pods1 pods2 hset hhost hnodes x
  · intro ns hs hns hhs
    rw [e1, appendPresent_eq, List.nil_append]
    congr 1
    apply List.filter_congr
    intro x _
    rw [decide_eq_decide]
    exact mem_expandNodeMap_perm hc1 pods1 ns hs hns hhs x

/-- C18 on scenario 1, against a lister that returns the matched pod twice around an
unscheduled pod and a cache that lists the nodes of `h1` in another order, one of them
twice. -/
theorem Filter_order_independent_witness :
    (∀ x, x ∈ assignedNodes [Scenario.podOn "n1"] ↔
      x ∈ assignedNodes [Scenario.podOn "n1", Scenario.podUnscheduled, Scenario.podOn "n1"]) ∧
    (∀ h x, x ∈ Scenario.cache.GetNodes h ↔ x ∈ Scenario.cacheShuffled.GetNodes h) ∧
    Filter Scenario.convOk
      (NewPodAffinity (Scenario.lister [Scenario.podOn "n1"] none) Scenario.cache)
      (Scenario.podWith [Scenario.hostTerm]) ["n1", "n2", "n3"] =
    Filter Scenario.convOk
      (NewPodAffinity (Scenario.lister
        [Scenario.podOn "n1", Scenario.podUnscheduled, Scenario.podOn "n1"] none)
        Scenario.cacheShuffled)
      (Scenario.podWith [Scenario.hostTerm]) ["n1", "n2", "n3"] :=
  have hset : ∀ x, x ∈ assignedNodes [Scenario.podOn "n1"] ↔
      x ∈ assignedNodes
        [Scenario.podOn "n1", Scenario.podUnscheduled, Scenario.podOn "n1"] := by
    intro x
    have e1 : assignedNodes [Scenario.podOn "n1"] = ["n1"] := rfl
    have e2 : assignedNodes
        [Scenario.podOn "n1", Scenario.podUnscheduled, Scenario.podOn "n1"] = ["n1", "n1"] := rfl
    rw [e1, e2]
    simp
  have hnodes : ∀ h x,
      x ∈ Scenario.cache.GetNodes h ↔ x ∈ Scenario.cacheShuffled.GetNodes h := by
    intro h x
    by_cases hh : h = "h1"
    · subst hh
      have e1 : Scenario.cache.GetNodes "h1" = ["n1", "n2"] := rfl
      have e2 : Scenario.cacheShuffled.GetNodes "h1" = ["n2", "n1", "n2"] := rfl
      rw [e1, e2]
      simp only [List.mem_cons, List.mem_singleton, List.not_mem_nil, or_false]
      constructor
      · rintro (h | h)
        · exact Or.inr (Or.inl h)
        · exact Or.inl h
      · rintro (h | h | h)
        · exact Or.inr h
        · exact Or.inl h
        · exact Or.inr h
    · simp [Scenario.cache, Scenario.cacheShuffled, hh]
  ⟨hset, hnodes,
    (Filter_order_independent Scenario.convOk (Scenario.lister [Scenario.podOn "n1"] none)
      (Scenario.lister [Scenario.podOn "n1", Scenario.podUnscheduled, Scenario.podOn "n1"] none)
      Scenario.cache Scenario.cacheShuffled (Scenario.podWith [Scenario.hostTerm])
      ["n1", "n2", "n3"] [Scenario.hostTerm] [Scenario.podOn "n1"]
      [Scenario.podOn "n1", Scenario.podUnscheduled, Scenario.podOn "n1"] rfl (by decide)
      rfl rfl hset (fun _ => rfl) hnodes).1⟩

end Contract



end filters
